import Mathlib

/-!
# Verification of the container-cluster reconciliation engine

Shallow embedding of `google/resource_container_cluster.go` and
`google/resource_compute_https_health_check.go` from the
`terraform-provider-google` repository: the Create / Update / Delete
workflows for a GKE container cluster (per-identity mutex handling,
the ordered sequence of single-field remote update calls, partial-progress
bookkeeping via `SetPartial`, the delete retry loop) and the create
workflow of the HTTPS health check resource.

Remote interactions are modelled as an explicit event trace (lock /
unlock / remote call / operation wait); the outcome of each remote call
(request error, operation-wait error, or success) is supplied by an
environment function indexed by the position of the call in the trace.
-/

open scoped List

namespace TPG

/-! ## Go string helpers

`strings.Split` with a single-character separator, implemented over the
character list so that all definitions evaluate by kernel reduction. -/

def splitChar (sep : Char) : List Char → List (List Char)
  | [] => [[]]
  | c :: rest =>
    let r := splitChar sep rest
    if c = sep then [] :: r else (c :: r.headD []) :: r.tail

/-- Model of Go `strings.Split(s, sep)` for a one-character separator. -/
def goSplit (s : String) (sep : Char) : List String :=
  (splitChar sep s.data).map String.mk

/-- `strings.Split(s, sep)[0]` — the prefix of `s` before the first `sep`. -/
def goSplitHead (s : String) (sep : Char) : String :=
  (goSplit s sep).headD ""

/-- From the repository (outside the two embedded files): a location is a
zone when it has exactly three dash-separated components
(e.g. `us-central1-a`); a region has two. -/
def isZone (location : String) : Bool :=
  (goSplit location '-').length == 3

/-! ## `schema.Set` of strings

Terraform's `schema.Set` of strings, represented as a duplicate-free list
with membership-based `Add`, `Union`, `Contains` and `Equal`. -/

def sAdd (s : List String) (x : String) : List String :=
  if s.contains x then s else s ++ [x]

def sUnion (a b : List String) : List String :=
  b.foldl sAdd a

def sEq (a b : List String) : Bool :=
  a.all (fun x => b.contains x) && b.all (fun x => a.contains x)

/-! ## Version parsing

Model of the external library `github.com/hashicorp/go-version` as used
here: a version is a dotted list of numeric segments, optionally followed
by a `-prerelease` suffix (for example `1.2`, `1.2.3`, or `1.2-gke.1`);
malformed strings do not parse.  Comparison pads segment lists with zeros
and orders a prerelease before the corresponding release. -/

structure GoVersion where
  segments : List Nat
  pre : String
  deriving Repr, DecidableEq

def digitVal (c : Char) : Option Nat :=
  if c.isDigit then some (c.toNat - 48) else none

def parseNatAux : List Char → Nat → Option Nat
  | [], acc => some acc
  | c :: rest, acc =>
    match digitVal c with
    | some d => parseNatAux rest (acc * 10 + d)
    | none => none

def parseNat (s : String) : Option Nat :=
  match s.data with
  | [] => none
  | cs => parseNatAux cs 0

def parseSegs : List String → Option (List Nat)
  | [] => some []
  | s :: rest =>
    match parseNat s, parseSegs rest with
    | some n, some ns => some (n :: ns)
    | _, _ => none

/-- Model of `version.NewVersion` from the external go-version library. -/
def NewVersion (s : String) : Option GoVersion :=
  let parts := goSplit s '-'
  let core := parts.headD ""
  let pre := String.intercalate "-" parts.tail
  match parseSegs (goSplit core '.') with
  | some segs => some ⟨segs, pre⟩
  | none => none

def segCmp : List Nat → List Nat → Ordering
  | [], bs => if bs.all (fun b => b = 0) then Ordering.eq else Ordering.lt
  | a :: as, [] => if a = 0 then segCmp as [] else Ordering.gt
  | a :: as, b :: bs => (compare a b).then (segCmp as bs)

def strLtAux : List Char → List Char → Bool
  | [], [] => false
  | [], _ :: _ => true
  | _ :: _, [] => false
  | a :: as, b :: bs =>
    if a.toNat < b.toNat then true
    else if b.toNat < a.toNat then false
    else strLtAux as bs

/-- Model of `Version.LessThan` from the external go-version library. -/
def GoVersion.lessThan (v w : GoVersion) : Bool :=
  match segCmp v.segments w.segments with
  | Ordering.lt => true
  | Ordering.gt => false
  | Ordering.eq =>
    if v.pre = w.pre then false
    else if w.pre = "" then true
    else if v.pre = "" then false
    else strLtAux v.pre.data w.pre.data

/-! ## Identity / lock keys (from the source) -/

def containerClusterMutexKey (project location clusterName : String) : String :=
  "google-container-cluster/" ++ project ++ "/" ++ location ++ "/" ++ clusterName

def containerClusterFullName (project location cluster : String) : String :=
  "projects/" ++ project ++ "/locations/" ++ location ++ "/clusters/" ++ cluster

/-! ## Remote calls and the event trace -/

/-- `container.ClusterUpdate`: the one-change-at-a-time update payload.
Each remote `UpdateClusterRequest` built by the source sets exactly one of
these fields. -/
structure ClusterUpdate where
  desiredMasterAuthorizedNetworksConfig : Option (List String) := none
  desiredMasterVersion : Option String := none
  desiredNodeVersion : Option String := none
  desiredAddonsConfig : Option Unit := none
  desiredLocations : Option (List String) := none
  desiredMonitoringService : Option String := none
  desiredPodSecurityPolicyConfig : Option Unit := none
  deriving Repr, DecidableEq

/-- Number of `Desired*` fields the payload sets. -/
def ClusterUpdate.fieldCount (u : ClusterUpdate) : Nat :=
  (if u.desiredMasterAuthorizedNetworksConfig.isSome then 1 else 0) +
  (if u.desiredMasterVersion.isSome then 1 else 0) +
  (if u.desiredNodeVersion.isSome then 1 else 0) +
  (if u.desiredAddonsConfig.isSome then 1 else 0) +
  (if u.desiredLocations.isSome then 1 else 0) +
  (if u.desiredMonitoringService.isSome then 1 else 0) +
  (if u.desiredPodSecurityPolicyConfig.isSome then 1 else 0)

/-- The remote mutating calls the embedded code can issue. -/
inductive RemoteCall
  | createCluster (name : String)
  | updateCluster (u : ClusterUpdate)
  | setMaintenancePolicy
  | setLegacyAbac (enabled : Bool)
  | setNetworkPolicy
  | setLoggingService (s : String)
  | nodePoolUpdate (i : Nat)
  | nodePoolDelete (pool : String)
  | deleteCluster (name : String)
  deriving Repr, DecidableEq

/-- One observable step of a workflow: mutex acquisition / release, a
remote call, or an operation wait reaching a terminal state. -/
inductive Ev
  | lock (key : String)
  | unlock (key : String)
  | call (c : RemoteCall)
  | opWait
  deriving Repr, DecidableEq

def isLockEv : Ev → Bool
  | Ev.lock _ => true
  | _ => false

def isUnlockEv : Ev → Bool
  | Ev.unlock _ => true
  | _ => false

def callsOf (evs : List Ev) : List RemoteCall :=
  evs.filterMap fun e =>
    match e with
    | Ev.call c => some c
    | _ => none

/-- Outcome of one remote call together with its operation wait:
success, synchronous request error, or operation-wait failure
(operation error or wait-budget timeout). -/
inductive COutcome
  | ok
  | reqErr
  | waitErr
  deriving Repr, DecidableEq

/-- Environment in which every remote call succeeds. -/
def allOkEnv : Nat → COutcome := fun _ => COutcome.ok

/-! ## The Update workflow (`resourceContainerClusterUpdate`)

The function is a fixed sequence of guarded blocks, one per top-level
field group, in source order.  Each block issues its remote call(s)
through `lockedCall` (acquire the per-identity mutex, run the call and
its operation wait, release the mutex — the repository helper used at
every update call site) and then records the group as applied with
`d.SetPartial`.  We embed the function as a planner producing the list
of guarded steps (`planSteps`) plus a runner (`runPlan`) executing them
against an environment of call outcomes. -/

/-- The top-level field groups of the update function, in source order. -/
inductive FieldGroup
  | masterAuthorizedNetworksConfig
  | minMasterVersion
  | nodeVersion
  | addonsConfig
  | maintenancePolicy
  | additionalZones
  | enableLegacyAbac
  | monitoringService
  | networkPolicy
  | nodePool
  | loggingService
  | podSecurityPolicyConfig
  | removeDefaultNodePool
  deriving Repr, DecidableEq, Fintype

/-- Source order of the update blocks, used to state precedence. -/
def canonicalOrder : List FieldGroup :=
  [FieldGroup.masterAuthorizedNetworksConfig, FieldGroup.minMasterVersion,
   FieldGroup.nodeVersion, FieldGroup.addonsConfig, FieldGroup.maintenancePolicy,
   FieldGroup.additionalZones, FieldGroup.enableLegacyAbac,
   FieldGroup.monitoringService, FieldGroup.networkPolicy, FieldGroup.nodePool,
   FieldGroup.loggingService, FieldGroup.podSecurityPolicyConfig,
   FieldGroup.removeDefaultNodePool]

def rank : FieldGroup → Nat
  | FieldGroup.masterAuthorizedNetworksConfig => 0
  | FieldGroup.minMasterVersion => 1
  | FieldGroup.nodeVersion => 2
  | FieldGroup.addonsConfig => 3
  | FieldGroup.maintenancePolicy => 4
  | FieldGroup.additionalZones => 5
  | FieldGroup.enableLegacyAbac => 6
  | FieldGroup.monitoringService => 7
  | FieldGroup.networkPolicy => 8
  | FieldGroup.nodePool => 9
  | FieldGroup.loggingService => 10
  | FieldGroup.podSecurityPolicyConfig => 11
  | FieldGroup.removeDefaultNodePool => 12

/-- The `d.SetPartial` key a group records on success (the removal of the
default node pool records none). -/
def groupKey : FieldGroup → Option String
  | FieldGroup.masterAuthorizedNetworksConfig => some "master_authorized_networks_config"
  | FieldGroup.minMasterVersion => some "min_master_version"
  | FieldGroup.nodeVersion => some "node_version"
  | FieldGroup.addonsConfig => some "addons_config"
  | FieldGroup.maintenancePolicy => some "maintenance_policy"
  | FieldGroup.additionalZones => some "additional_zones"
  | FieldGroup.enableLegacyAbac => some "enable_legacy_abac"
  | FieldGroup.monitoringService => some "monitoring_service"
  | FieldGroup.networkPolicy => some "network_policy"
  | FieldGroup.nodePool => some "node_pool"
  | FieldGroup.loggingService => some "logging_service"
  | FieldGroup.podSecurityPolicyConfig => some "pod_security_policy_config"
  | FieldGroup.removeDefaultNodePool => none

/-- The field group a remote call belongs to (from the single field its
payload sets, or the kind of setter request). -/
def callGroup : RemoteCall → Option FieldGroup
  | RemoteCall.updateCluster u =>
    if u.desiredMasterAuthorizedNetworksConfig.isSome then
      some FieldGroup.masterAuthorizedNetworksConfig
    else if u.desiredMasterVersion.isSome then some FieldGroup.minMasterVersion
    else if u.desiredNodeVersion.isSome then some FieldGroup.nodeVersion
    else if u.desiredAddonsConfig.isSome then some FieldGroup.addonsConfig
    else if u.desiredLocations.isSome then some FieldGroup.additionalZones
    else if u.desiredMonitoringService.isSome then some FieldGroup.monitoringService
    else if u.desiredPodSecurityPolicyConfig.isSome then
      some FieldGroup.podSecurityPolicyConfig
    else none
  | RemoteCall.setMaintenancePolicy => some FieldGroup.maintenancePolicy
  | RemoteCall.setLegacyAbac _ => some FieldGroup.enableLegacyAbac
  | RemoteCall.setNetworkPolicy => some FieldGroup.networkPolicy
  | RemoteCall.setLoggingService _ => some FieldGroup.loggingService
  | RemoteCall.nodePoolUpdate _ => some FieldGroup.nodePool
  | RemoteCall.nodePoolDelete _ => some FieldGroup.removeDefaultNodePool
  | _ => none

/-- The `desiredLocations` payload of a call, if it is a locations update. -/
def getLoc : RemoteCall → Option (List String)
  | RemoteCall.updateCluster u => u.desiredLocations
  | _ => none

/-- The diff `resourceContainerClusterUpdate` reads from `d`:
`HasChange` flags plus the current values of the fields whose values the
update blocks consult.  `nodePools` holds a changed-flag per configured
node pool (`d.GetOk("node_pool.#")` succeeds iff the list is nonempty). -/
structure UpdateInput where
  project : String := "p"
  location : String := "z"
  clusterName : String := "c"
  hasMasterAuthorizedNetworksConfigChange : Bool := false
  masterAuthorizedNetworksConfig : List String := []
  hasMinMasterVersionChange : Bool := false
  minMasterVersion : String := ""
  masterVersion : String := ""
  hasNodeVersionChange : Bool := false
  nodeVersion : String := ""
  hasAddonsConfigChange : Bool := false
  addonsConfigPresent : Bool := false
  hasMaintenancePolicyChange : Bool := false
  hasAdditionalZonesChange : Bool := false
  additionalZonesOld : List String := []
  additionalZonesNew : List String := []
  hasEnableLegacyAbacChange : Bool := false
  enableLegacyAbac : Bool := false
  hasMonitoringServiceChange : Bool := false
  monitoringService : String := ""
  hasNetworkPolicyChange : Bool := false
  nodePools : List Bool := []
  hasLoggingServiceChange : Bool := false
  loggingService : String := ""
  hasPodSecurityPolicyConfigChange : Bool := false
  hasRemoveDefaultNodePoolChange : Bool := false
  removeDefaultNodePool : Bool := false

def updLockKey (inp : UpdateInput) : String :=
  containerClusterMutexKey inp.project inp.location inp.clusterName

/-- One remote call together with the mutex key `lockedCall` wraps it in
(`none` for the default-node-pool removal, which the source issues with
no lock at all). -/
structure CallUnit where
  lockKey : Option String
  call : RemoteCall
  deriving Repr, DecidableEq

/-- What a guarded block does once its guard fires: abort with a local
error before any remote call (version parse failure, `additional_zones`
containing the original zone), or run its call units and record its
`SetPartial` key on success. -/
inductive StepAction
  | abort
  | runStep (units : List CallUnit) (partialKey : Option String)
  deriving Repr, DecidableEq

structure PlanStep where
  group : FieldGroup
  action : StepAction
  deriving Repr, DecidableEq

instance : Inhabited PlanStep := ⟨⟨FieldGroup.nodePool, StepAction.abort⟩⟩

def stepUnits (s : PlanStep) : List CallUnit :=
  match s.action with
  | StepAction.abort => []
  | StepAction.runStep us _ => us

def stepPartialKey (s : PlanStep) : Option String :=
  match s.action with
  | StepAction.abort => none
  | StepAction.runStep _ pk => pk

/-! ### The thirteen guarded blocks, in source order -/

def stepMasterAuthorizedNetworks (inp : UpdateInput) : List PlanStep :=
  if inp.hasMasterAuthorizedNetworksConfigChange then
    [⟨FieldGroup.masterAuthorizedNetworksConfig,
      StepAction.runStep
        [⟨some (updLockKey inp),
          RemoteCall.updateCluster
            { desiredMasterAuthorizedNetworksConfig :=
                some inp.masterAuthorizedNetworksConfig }⟩]
        (some "master_authorized_networks_config")⟩]
  else []

/-- `min_master_version`: parse both versions (error aborts the update
before any call of this step); issue the one-field master-version update
only when the current version is strictly lower than the desired one, and
record the partial either way. -/
def stepMinMasterVersion (inp : UpdateInput) : List PlanStep :=
  if inp.hasMinMasterVersionChange then
    match NewVersion inp.minMasterVersion, NewVersion inp.masterVersion with
    | some des, some cur =>
      [⟨FieldGroup.minMasterVersion,
        StepAction.runStep
          (if cur.lessThan des then
            [⟨some (updLockKey inp),
              RemoteCall.updateCluster
                { desiredMasterVersion := some inp.minMasterVersion }⟩]
          else [])
          (some "min_master_version")⟩]
    | _, _ => [⟨FieldGroup.minMasterVersion, StepAction.abort⟩]
  else []

def stepNodeVersion (inp : UpdateInput) : List PlanStep :=
  if inp.hasNodeVersionChange then
    [⟨FieldGroup.nodeVersion,
      StepAction.runStep
        [⟨some (updLockKey inp),
          RemoteCall.updateCluster { desiredNodeVersion := some inp.nodeVersion }⟩]
        (some "node_version")⟩]
  else []

def stepAddonsConfig (inp : UpdateInput) : List PlanStep :=
  if inp.hasAddonsConfigChange && inp.addonsConfigPresent then
    [⟨FieldGroup.addonsConfig,
      StepAction.runStep
        [⟨some (updLockKey inp),
          RemoteCall.updateCluster { desiredAddonsConfig := some () }⟩]
        (some "addons_config")⟩]
  else []

def stepMaintenancePolicy (inp : UpdateInput) : List PlanStep :=
  if inp.hasMaintenancePolicyChange then
    [⟨FieldGroup.maintenancePolicy,
      StepAction.runStep
        [⟨some (updLockKey inp), RemoteCall.setMaintenancePolicy⟩]
        (some "maintenance_policy")⟩]
  else []

/-- The locations set the first `additional_zones` call sends: the union
of the old and the new zone sets, plus the original zone when the
location is a zone. -/
def azFirstSend (inp : UpdateInput) : List String :=
  if isZone inp.location then
    sAdd (sUnion inp.additionalZonesOld inp.additionalZonesNew) inp.location
  else sUnion inp.additionalZonesOld inp.additionalZonesNew

/-- The target locations set: the new zone set, plus the original zone
when the location is a zone. -/
def azTarget (inp : UpdateInput) : List String :=
  if isZone inp.location then sAdd inp.additionalZonesNew inp.location
  else inp.additionalZonesNew

/-- `additional_zones`: reject a new set containing the original zone;
otherwise first send the union of the old and new sets (add before
remove), then send the new set exactly when the union differs from it. -/
def stepAdditionalZones (inp : UpdateInput) : List PlanStep :=
  if inp.hasAdditionalZonesChange then
    if inp.additionalZonesNew.contains inp.location then
      [⟨FieldGroup.additionalZones, StepAction.abort⟩]
    else
      [⟨FieldGroup.additionalZones,
        StepAction.runStep
          (⟨some (updLockKey inp),
            RemoteCall.updateCluster { desiredLocations := some (azFirstSend inp) }⟩ ::
            (if sEq (azFirstSend inp) (azTarget inp) then []
             else
              [⟨some (updLockKey inp),
                RemoteCall.updateCluster { desiredLocations := some (azTarget inp) }⟩]))
          (some "additional_zones")⟩]
  else []

def stepEnableLegacyAbac (inp : UpdateInput) : List PlanStep :=
  if inp.hasEnableLegacyAbacChange then
    [⟨FieldGroup.enableLegacyAbac,
      StepAction.runStep
        [⟨some (updLockKey inp), RemoteCall.setLegacyAbac inp.enableLegacyAbac⟩]
        (some "enable_legacy_abac")⟩]
  else []

def stepMonitoringService (inp : UpdateInput) : List PlanStep :=
  if inp.hasMonitoringServiceChange then
    [⟨FieldGroup.monitoringService,
      StepAction.runStep
        [⟨some (updLockKey inp),
          RemoteCall.updateCluster
            { desiredMonitoringService := some inp.monitoringService }⟩]
        (some "monitoring_service")⟩]
  else []

def stepNetworkPolicy (inp : UpdateInput) : List PlanStep :=
  if inp.hasNetworkPolicyChange then
    [⟨FieldGroup.networkPolicy,
      StepAction.runStep
        [⟨some (updLockKey inp), RemoteCall.setNetworkPolicy⟩]
        (some "network_policy")⟩]
  else []

/-- Modelled from the spec: `nodePoolUpdate` (defined outside the two
embedded files) applies each changed node pool as its own fully
lock-protected remote call sequence, one pool at a time, issuing no
remote call for an unchanged pool; the block runs whenever node pools are
configured and records `node_pool` afterwards. -/
def stepNodePools (inp : UpdateInput) : List PlanStep :=
  if inp.nodePools.length != 0 then
    [⟨FieldGroup.nodePool,
      StepAction.runStep
        ((List.range inp.nodePools.length).filterMap fun i =>
          if inp.nodePools.getD i false then
            some ⟨some (updLockKey inp), RemoteCall.nodePoolUpdate i⟩
          else none)
        (some "node_pool")⟩]
  else []

def stepLoggingService (inp : UpdateInput) : List PlanStep :=
  if inp.hasLoggingServiceChange then
    [⟨FieldGroup.loggingService,
      StepAction.runStep
        [⟨some (updLockKey inp), RemoteCall.setLoggingService inp.loggingService⟩]
        (some "logging_service")⟩]
  else []

def stepPodSecurityPolicy (inp : UpdateInput) : List PlanStep :=
  if inp.hasPodSecurityPolicyConfigChange then
    [⟨FieldGroup.podSecurityPolicyConfig,
      StepAction.runStep
        [⟨some (updLockKey inp),
          RemoteCall.updateCluster { desiredPodSecurityPolicyConfig := some () }⟩]
        (some "pod_security_policy_config")⟩]
  else []

/-- The default-node-pool removal block at the end of the update function:
issued with no `lockedCall` wrapper and with no `SetPartial`. -/
def stepRemoveDefaultNodePool (inp : UpdateInput) : List PlanStep :=
  if inp.hasRemoveDefaultNodePoolChange && inp.removeDefaultNodePool then
    [⟨FieldGroup.removeDefaultNodePool,
      StepAction.runStep [⟨none, RemoteCall.nodePoolDelete "default-pool"⟩] none⟩]
  else []

def planSteps (inp : UpdateInput) : List PlanStep :=
  stepMasterAuthorizedNetworks inp ++ (stepMinMasterVersion inp ++
  (stepNodeVersion inp ++ (stepAddonsConfig inp ++ (stepMaintenancePolicy inp ++
  (stepAdditionalZones inp ++ (stepEnableLegacyAbac inp ++
  (stepMonitoringService inp ++ (stepNetworkPolicy inp ++ (stepNodePools inp ++
  (stepLoggingService inp ++ (stepPodSecurityPolicy inp ++
  stepRemoveDefaultNodePool inp)))))))))))

/-! ### Executing the plan -/

/-- Events of one call unit under an outcome: `lockedCall` acquires the
mutex, issues the call, waits on the operation unless the request itself
failed, and releases the mutex on every exit path (`defer`). -/
def unitEvents (u : CallUnit) (o : COutcome) : List Ev :=
  (match u.lockKey with | some k => [Ev.lock k] | none => []) ++
  (Ev.call u.call :: (if o = COutcome.reqErr then [] else [Ev.opWait])) ++
  (match u.lockKey with | some k => [Ev.unlock k] | none => [])

structure UnitsOut where
  events : List Ev
  next : Nat
  ok : Bool

/-- Run the units of one step: each consumes the next environment outcome;
the first failing unit stops the step. -/
def runUnits (env : Nat → COutcome) : Nat → List CallUnit → UnitsOut
  | k, [] => ⟨[], k, true⟩
  | k, u :: us =>
    if env k = COutcome.ok then
      let r := runUnits env (k + 1) us
      ⟨unitEvents u (env k) ++ r.events, r.next, r.ok⟩
    else
      ⟨unitEvents u (env k), k + 1, false⟩

structure RunOut where
  events : List Ev
  partials : List String
  completed : Nat
  ok : Bool
  next : Nat

/-- Run the planned steps in order: a failing step (or a local abort)
returns immediately; a successful step prepends its `SetPartial` key and
continues. -/
def runPlan (env : Nat → COutcome) : Nat → List PlanStep → RunOut
  | k, [] => ⟨[], [], 0, true, k⟩
  | k, s :: rest =>
    match s.action with
    | StepAction.abort => ⟨[], [], 0, false, k⟩
    | StepAction.runStep units pk =>
      let r := runUnits env k units
      if r.ok then
        let r2 := runPlan env r.next rest
        ⟨r.events ++ r2.events, pk.toList ++ r2.partials, r2.completed + 1,
         r2.ok, r2.next⟩
      else
        ⟨r.events, [], 0, false, r.next⟩

/-- The update workflow: run the source-ordered sequence of guarded
blocks against an environment assigning an outcome to each remote call. -/
def updResult (inp : UpdateInput) (env : Nat → COutcome) : RunOut :=
  runPlan env 0 (planSteps inp)

def plannedCalls (steps : List PlanStep) : List RemoteCall :=
  (steps.map fun s => (stepUnits s).map (·.call)).flatten

def partialKeys (steps : List PlanStep) : List String :=
  steps.filterMap stepPartialKey

def issuedGroups (evs : List Ev) : List FieldGroup :=
  (callsOf evs).filterMap callGroup

/-! ## The Create workflow (`resourceContainerClusterCreate`) -/

/-- The fields of the create configuration that the embedded validation
and follow-up logic consults.  `Option` fields model `d.GetOk` (a field
set to its zero value reads back as absent). -/
structure CreateInput where
  project : String := "p"
  location : String := "z"
  clusterName : String := "c"
  minMasterVersion : Option String := none
  nodeVersion : Option String := none
  additionalZones : Option (List String) := none
  privateCluster : Bool := false
  masterIpv4CidrBlock : Option String := none
  hasIpAllocationPolicy : Bool := false
  removeDefaultNodePool : Bool := false

/-- Outcomes of the two asynchronous mutations create may issue. -/
structure CreateEnv where
  createOutcome : COutcome := COutcome.ok
  npDeleteOutcome : COutcome := COutcome.ok

/-- `node_version` may only be set on create when it equals
`min_master_version` up to the `-gke.X` suffix (`InitialClusterVersion`
is empty when `min_master_version` is absent). -/
def nodeVersionMismatch (inp : CreateInput) : Bool :=
  match inp.nodeVersion with
  | some nv =>
    goSplitHead (inp.minMasterVersion.getD "") '-' != goSplitHead nv '-'
  | none => false

def zonesContainLocation (inp : CreateInput) : Bool :=
  match inp.additionalZones with
  | some zs => zs.contains inp.location
  | none => false

def privateClusterMissingCidr (inp : CreateInput) : Bool :=
  inp.privateCluster && inp.masterIpv4CidrBlock.isNone

def privateClusterMissingIpAlloc (inp : CreateInput) : Bool :=
  inp.privateCluster && !inp.hasIpAllocationPolicy

/-- The cross-field validation of `resourceContainerClusterCreate`, in
source order; every check precedes the mutex acquisition and the remote
create call. -/
def createValidationError (inp : CreateInput) : Option String :=
  if nodeVersionMismatch inp then
    some "node_version and min_master_version must be set to equivalent values on create"
  else if zonesContainLocation inp then
    some "additional_zones should not contain the original 'zone'"
  else if privateClusterMissingCidr inp then
    some "master_ipv4_cidr_block is mandatory when private_cluster=true"
  else if privateClusterMissingIpAlloc inp then
    some "ip_allocation_policy is mandatory when private_cluster=true"
  else none

structure CreateOut where
  events : List Ev
  id : String
  error : Option String

/-- The body of create once the mutex is held: issue the create call,
set the id, wait (clearing the id again if the wait fails), then — on
success with `remove_default_node_pool` — delete the default node pool
and wait for that operation, all before the deferred unlock. -/
def createBody (inp : CreateInput) (env : CreateEnv) : List Ev × String × Option String :=
  let callEv := Ev.call (RemoteCall.createCluster inp.clusterName)
  match env.createOutcome with
  | COutcome.reqErr => ([callEv], "", some "create request failed")
  | COutcome.waitErr => ([callEv, Ev.opWait], "", some "creating GKE cluster failed")
  | COutcome.ok =>
    if inp.removeDefaultNodePool then
      let npEv := Ev.call (RemoteCall.nodePoolDelete "default-pool")
      match env.npDeleteOutcome with
      | COutcome.reqErr =>
        ([callEv, Ev.opWait, npEv], inp.clusterName,
         some "Error deleting default node pool")
      | COutcome.waitErr =>
        ([callEv, Ev.opWait, npEv, Ev.opWait], inp.clusterName,
         some "Error deleting default node pool")
      | COutcome.ok =>
        ([callEv, Ev.opWait, npEv, Ev.opWait], inp.clusterName, none)
    else ([callEv, Ev.opWait], inp.clusterName, none)

/-- `resourceContainerClusterCreate`: validate, then lock the identity
key, run the body, and release the lock on every exit path. -/
def createModel (inp : CreateInput) (env : CreateEnv) : CreateOut :=
  match createValidationError inp with
  | some e => ⟨[], "", some e⟩
  | none =>
    let key := containerClusterMutexKey inp.project inp.location inp.clusterName
    let b := createBody inp env
    ⟨Ev.lock key :: b.1 ++ [Ev.unlock key], b.2.1, b.2.2⟩

/-! ## The HTTPS health check create (`resourceComputeHttpsHealthCheckCreate`) -/

structure HhcOut where
  id : String
  error : Option String

/-- Create of the HTTPS health check: `Post`, then `SetId(name)`, then the
operation wait; a failed wait clears the id before returning the error. -/
def httpsHealthCheckCreate (name : String) (postOutcome : COutcome) : HhcOut :=
  match postOutcome with
  | COutcome.reqErr => ⟨"", some "Error creating HttpsHealthCheck"⟩
  | COutcome.waitErr => ⟨"", some "Creating HttpsHealthCheck failed"⟩
  | COutcome.ok => ⟨name, none⟩

/-! ## The Delete workflow (`resourceContainerClusterDelete`) -/

/-- Outcome of the `resource.Retry(30*time.Second, ...)` loop around the
remote delete call. -/
inductive RetryOutcome
  | accepted (attempt : Nat)
  | timeoutErr
  | cappedErr
  deriving Repr, DecidableEq

/-- The delete retry loop: each iteration increments `count` and issues
the remote delete call; a rejected call is retried (until the 30-second
budget, modelled as the number of attempts `budget` admits, runs out,
which surfaces the retry helper's timeout error); an accepted call
returns an error when `count == 15` and success otherwise. -/
def deleteRetry (callOk : Nat → Bool) (name : String) :
    Nat → Nat → List Ev × RetryOutcome
  | 0, _ => ([], RetryOutcome.timeoutErr)
  | b + 1, count =>
    let n := count + 1
    let ev := Ev.call (RemoteCall.deleteCluster name)
    if !(callOk n) then
      let r := deleteRetry callOk name b n
      (ev :: r.1, r.2)
    else if n = 15 then ([ev], RetryOutcome.cappedErr)
    else ([ev], RetryOutcome.accepted n)

structure DeleteInput where
  project : String := "p"
  location : String := "z"
  clusterName : String := "c"

structure DeleteEnv where
  deleteCallOk : Nat → Bool
  budget : Nat
  waitOk : Bool

structure DeleteOut where
  events : List Ev
  id : String
  error : Option String

/-- `resourceContainerClusterDelete`: lock the identity key, run the
retry loop around the remote delete call, await the deletion operation
once the call is accepted, clear the id on success, and release the lock
on every exit path. -/
def deleteModel (inp : DeleteInput) (env : DeleteEnv) : DeleteOut :=
  let key := containerClusterMutexKey inp.project inp.location inp.clusterName
  let name := containerClusterFullName inp.project inp.location inp.clusterName
  let r := deleteRetry env.deleteCallOk name env.budget 0
  match r.2 with
  | RetryOutcome.accepted _ =>
    if env.waitOk then
      ⟨Ev.lock key :: r.1 ++ [Ev.opWait, Ev.unlock key], "", none⟩
    else
      ⟨Ev.lock key :: r.1 ++ [Ev.opWait, Ev.unlock key], inp.clusterName,
       some "deleting GKE cluster failed"⟩
  | _ =>
    ⟨Ev.lock key :: r.1 ++ [Ev.unlock key], inp.clusterName,
     some "Error deleting Cluster"⟩

/-! ## Runner lemmas -/

theorem callsOf_append (a b : List Ev) :
    callsOf (a ++ b) = callsOf a ++ callsOf b := by
  simp [callsOf]

theorem callsOf_unitEvents (u : CallUnit) (o : COutcome) :
    callsOf (unitEvents u o) = [u.call] := by
  unfold unitEvents
  cases u.lockKey <;> split <;> simp [callsOf]

theorem isPrefixAppendBoth {α : Type} (xs : List α) {p q : List α}
    (h : p <+: q) : xs ++ p <+: xs ++ q := by
  obtain ⟨t, ht⟩ := h
  exact ⟨t, by rw [← ht, List.append_assoc]⟩

theorem isPrefixOfAppend {α : Type} (l t : List α) : l <+: l ++ t := ⟨t, rfl⟩

theorem runUnits_calls_front (env : Nat → COutcome) (us : List CallUnit) :
    ∀ k, callsOf (runUnits env k us).events <+: us.map (·.call) := by
  induction us with
  | nil => intro k; simp [runUnits, callsOf]
  | cons u us ih =>
    intro k
    unfold runUnits
    split
    · simpa [callsOf_append, callsOf_unitEvents] using
        isPrefixAppendBoth [u.call] (ih (k + 1))
    · simp only [callsOf_unitEvents, List.map_cons]
      exact isPrefixOfAppend [u.call] (List.map (fun x => x.call) us)

theorem runUnits_cons (env : Nat → COutcome) (k : Nat) (u : CallUnit)
    (us : List CallUnit) :
    runUnits env k (u :: us) =
      if env k = COutcome.ok then
        ⟨unitEvents u (env k) ++ (runUnits env (k + 1) us).events,
         (runUnits env (k + 1) us).next, (runUnits env (k + 1) us).ok⟩
      else ⟨unitEvents u (env k), k + 1, false⟩ := rfl

theorem runUnits_ok_calls (env : Nat → COutcome) (us : List CallUnit) :
    ∀ k, (runUnits env k us).ok = true →
      callsOf (runUnits env k us).events = us.map (·.call) := by
  induction us with
  | nil => intro k _; simp [runUnits, callsOf]
  | cons u us ih =>
    intro k h
    by_cases hc : env k = COutcome.ok
    · rw [runUnits_cons] at h ⊢
      simp only [hc, if_true] at h ⊢
      simp only [callsOf_append, callsOf_unitEvents, List.map_cons]
      rw [ih (k + 1) h]
      simp
    · rw [runUnits_cons] at h
      simp [hc] at h

theorem runUnits_allOk (us : List CallUnit) :
    ∀ k, (runUnits allOkEnv k us).ok = true := by
  induction us with
  | nil => intro k; simp [runUnits]
  | cons u us ih => intro k; simpa [runUnits, allOkEnv] using ih (k + 1)

theorem partialKeys_cons (s : PlanStep) (steps : List PlanStep) :
    partialKeys (s :: steps) = (stepPartialKey s).toList ++ partialKeys steps := by
  unfold partialKeys
  cases h : stepPartialKey s <;> simp [List.filterMap_cons, h]

theorem plannedCalls_cons (s : PlanStep) (steps : List PlanStep) :
    plannedCalls (s :: steps) = (stepUnits s).map (·.call) ++ plannedCalls steps := by
  simp [plannedCalls]

theorem plannedCalls_append (a b : List PlanStep) :
    plannedCalls (a ++ b) = plannedCalls a ++ plannedCalls b := by
  simp [plannedCalls]

theorem partialKeys_append (a b : List PlanStep) :
    partialKeys (a ++ b) = partialKeys a ++ partialKeys b := by
  simp [partialKeys]

/-- Partial-progress specification of the runner: some first `completed`
steps fully succeed, their `SetPartial` keys (and only those) are
recorded in order, every issued remote call is a prefix of the calls
planned for the first `completed + 1` steps (so no call of a later step
is ever issued), the run succeeds exactly when every step completed. -/
theorem runPlan_spec (env : Nat → COutcome) (steps : List PlanStep) :
    ∀ k,
      (runPlan env k steps).completed ≤ steps.length ∧
      (runPlan env k steps).partials =
        partialKeys (steps.take (runPlan env k steps).completed) ∧
      callsOf (runPlan env k steps).events <+:
        plannedCalls (steps.take ((runPlan env k steps).completed + 1)) ∧
      ((runPlan env k steps).ok = true →
        (runPlan env k steps).completed = steps.length) ∧
      ((runPlan env k steps).ok = false →
        (runPlan env k steps).completed < steps.length) := by
  induction steps with
  | nil =>
    intro k
    simp [runPlan, partialKeys, plannedCalls, callsOf]
  | cons s rest ih =>
    intro k
    unfold runPlan
    cases ha : s.action with
    | abort =>
      refine ⟨by simp, by simp [partialKeys], ?_, by simp, by simp⟩
      have hu : stepUnits s = [] := by simp [stepUnits, ha]
      simp [callsOf, plannedCalls, hu]
    | runStep units pk =>
      by_cases hok : (runUnits env k units).ok = true
      · simp only [hok, if_true]
        obtain ⟨h1, h2, h3, h4, h5⟩ := ih (runUnits env k units).next
        refine ⟨by simpa using h1, ?_, ?_, ?_, ?_⟩
        · simp only [List.take_succ_cons, partialKeys_cons, callsOf_append]
          rw [h2]
          have : (stepPartialKey s).toList = pk.toList := by simp [stepPartialKey, ha]
          rw [this]
        · simp only [List.take_succ_cons, plannedCalls_cons, callsOf_append]
          rw [runUnits_ok_calls env units k hok]
          have : (stepUnits s).map (·.call) = units.map (·.call) := by
            simp [stepUnits, ha]
          rw [this]
          exact isPrefixAppendBoth _ h3
        · intro hko; simpa using h4 hko
        · intro hko; simpa using h5 hko
      · simp only [Bool.not_eq_true] at hok
        simp only [hok, Bool.false_eq_true, if_false]
        refine ⟨by simp, by simp [partialKeys], ?_, by simp, by simp⟩
        simp only [List.take_succ_cons, List.take_zero, plannedCalls_cons]
        have : (stepUnits s).map (·.call) = units.map (·.call) := by
          simp [stepUnits, ha]
        simpa [plannedCalls, this] using
          (runUnits_calls_front env units k).trans ⟨[], by simp⟩

theorem runPlan_cons_abort (env : Nat → COutcome) (k : Nat) (g : FieldGroup)
    (rest : List PlanStep) :
    runPlan env k (⟨g, StepAction.abort⟩ :: rest) = ⟨[], [], 0, false, k⟩ := rfl

theorem runPlan_cons_run (env : Nat → COutcome) (k : Nat) (g : FieldGroup)
    (units : List CallUnit) (pk : Option String) (rest : List PlanStep) :
    runPlan env k (⟨g, StepAction.runStep units pk⟩ :: rest) =
      if (runUnits env k units).ok then
        ⟨(runUnits env k units).events ++
           (runPlan env (runUnits env k units).next rest).events,
         pk.toList ++ (runPlan env (runUnits env k units).next rest).partials,
         (runPlan env (runUnits env k units).next rest).completed + 1,
         (runPlan env (runUnits env k units).next rest).ok,
         (runPlan env (runUnits env k units).next rest).next⟩
      else ⟨(runUnits env k units).events, [], 0, false,
            (runUnits env k units).next⟩ := rfl

/-- Composition of the runner over an append of plans. -/
theorem runPlan_append (env : Nat → COutcome) (b a : List PlanStep) :
    ∀ k,
      runPlan env k (a ++ b) =
        if (runPlan env k a).ok then
          ⟨(runPlan env k a).events ++ (runPlan env (runPlan env k a).next b).events,
           (runPlan env k a).partials ++ (runPlan env (runPlan env k a).next b).partials,
           (runPlan env k a).completed + (runPlan env (runPlan env k a).next b).completed,
           (runPlan env (runPlan env k a).next b).ok,
           (runPlan env (runPlan env k a).next b).next⟩
        else runPlan env k a := by
  induction a with
  | nil =>
    intro k
    simp [runPlan]
  | cons s a ih =>
    obtain ⟨g, ac⟩ := s
    intro k
    cases ac with
    | abort =>
      rw [List.cons_append, runPlan_cons_abort, runPlan_cons_abort]
      simp
    | runStep units pk =>
      rw [List.cons_append, runPlan_cons_run, runPlan_cons_run]
      by_cases hok : (runUnits env k units).ok = true
      · simp only [hok, if_true]
        rw [ih (runUnits env k units).next]
        by_cases hbo : (runPlan env (runUnits env k units).next a).ok = true
        · simp [hbo, Nat.add_right_comm, List.append_assoc]
        · simp only [Bool.not_eq_true] at hbo
          simp [hbo]
      · simp only [Bool.not_eq_true] at hok
        simp [hok]

/-- A plan containing a local abort never succeeds. -/
theorem runPlan_abort_mem (env : Nat → COutcome) (steps : List PlanStep)
    (s : PlanStep) (hs : s ∈ steps) (ha : s.action = StepAction.abort) :
    ∀ k, (runPlan env k steps).ok = false := by
  induction steps with
  | nil => cases hs
  | cons t rest ih =>
    intro k
    unfold runPlan
    rcases List.mem_cons.mp hs with h | h
    · subst h; simp [ha]
    · cases ht : t.action with
      | abort => simp
      | runStep units pk =>
        by_cases hok : (runUnits env k units).ok = true
        · simpa [hok] using ih h (runUnits env k units).next
        · simp only [Bool.not_eq_true] at hok
          simp [hok]

theorem mem_plannedCalls {steps : List PlanStep} {c : RemoteCall} :
    c ∈ plannedCalls steps ↔ ∃ s ∈ steps, ∃ u ∈ stepUnits s, u.call = c := by
  simp only [plannedCalls, List.mem_flatten, List.mem_map]
  constructor
  · rintro ⟨l, ⟨s, hs, rfl⟩, hc⟩
    obtain ⟨u, hu, rfl⟩ := List.mem_map.mp hc
    exact ⟨s, hs, u, hu, rfl⟩
  · rintro ⟨s, hs, u, hu, rfl⟩
    exact ⟨(stepUnits s).map (·.call), ⟨s, hs, rfl⟩, List.mem_map_of_mem _ hu⟩

/-! ### Mutex balance -/

/-- Scan the trace tracking whether the mutex is held; `none` marks a
violation (acquiring while held, or releasing while free). -/
def lockScan : List Ev → Option Bool → Option Bool
  | _, none => none
  | [], st => st
  | Ev.lock _ :: rest, some held =>
    if held then none else lockScan rest (some true)
  | Ev.unlock _ :: rest, some held =>
    if held then lockScan rest (some false) else none
  | _ :: rest, st => lockScan rest st

theorem lockScan_none : ∀ b : List Ev, lockScan b none = none
  | [] => rfl
  | e :: _ => by cases e <;> rfl

theorem lockScan_append (a b : List Ev) :
    ∀ st, lockScan (a ++ b) st = lockScan b (lockScan a st) := by
  induction a with
  | nil =>
    intro st
    cases st with
    | none => rw [show lockScan ([] ++ b) none = lockScan b none from rfl,
                  show lockScan [] none = none from rfl]
    | some held => rfl
  | cons e a ih =>
    intro st
    cases st with
    | none => rw [lockScan_none, lockScan_none, lockScan_none]
    | some held =>
      cases e with
      | lock key =>
        show (if held = true then none else lockScan (a ++ b) (some true)) =
          lockScan b (if held = true then none else lockScan a (some true))
        cases held with
        | true => exact (lockScan_none b).symm
        | false => exact ih (some true)
      | unlock key =>
        show (if held = true then lockScan (a ++ b) (some false) else none) =
          lockScan b (if held = true then lockScan a (some false) else none)
        cases held with
        | true => exact ih (some false)
        | false => exact (lockScan_none b).symm
      | call c => exact ih (some held)
      | opWait => exact ih (some held)

theorem lockScan_unitEvents (u : CallUnit) (o : COutcome) :
    lockScan (unitEvents u o) (some false) = some false := by
  obtain ⟨lk, c⟩ := u
  cases lk <;> dsimp only [unitEvents] <;> split <;> rfl

theorem lockScan_runUnits (env : Nat → COutcome) (us : List CallUnit) :
    ∀ k, lockScan (runUnits env k us).events (some false) = some false := by
  induction us with
  | nil => intro k; simp [runUnits, lockScan]
  | cons u us ih =>
    intro k
    unfold runUnits
    split
    · rw [lockScan_append, lockScan_unitEvents]
      exact ih (k + 1)
    · exact lockScan_unitEvents u _

/-- Along every update run the mutex is acquired and released in strict
alternation: never re-acquired while held, never released while free, and
free again at the end of the trace. -/
theorem lockScan_runPlan (env : Nat → COutcome) (steps : List PlanStep) :
    ∀ k, lockScan (runPlan env k steps).events (some false) = some false := by
  induction steps with
  | nil => intro k; simp [runPlan, lockScan]
  | cons s rest ih =>
    intro k
    unfold runPlan
    cases s.action with
    | abort => simp [lockScan]
    | runStep units pk =>
      by_cases hok : (runUnits env k units).ok = true
      · simp only [hok, if_true]
        rw [lockScan_append, lockScan_runUnits]
        exact ih _
      · simp only [Bool.not_eq_true] at hok
        simp only [hok, Bool.false_eq_true, if_false]
        exact lockScan_runUnits env units k

/-! ## Facts about the planned steps -/

def unitBound (inp : UpdateInput) (g : FieldGroup) : Nat :=
  if g = FieldGroup.additionalZones then 2
  else if g = FieldGroup.nodePool then inp.nodePools.length
  else 1

/-- The shape facts every planned step satisfies: all of its remote calls
belong to its own field group, every `UpdateClusterRequest` it issues
sets exactly one `Desired*` field, the number of its calls is bounded by
its group's bound, and only the `additional_zones` group ever sends a
`desiredLocations` payload. -/
def StepFacts (inp : UpdateInput) (s : PlanStep) : Prop :=
  (∀ u ∈ stepUnits s, callGroup u.call = some s.group) ∧
  (∀ u ∈ stepUnits s, ∀ cu, u.call = RemoteCall.updateCluster cu → cu.fieldCount = 1) ∧
  (stepUnits s).length ≤ unitBound inp s.group ∧
  (s.group ≠ FieldGroup.additionalZones → ∀ u ∈ stepUnits s, getLoc u.call = none)

theorem facts_stepMANC {inp : UpdateInput} {s : PlanStep}
    (h : s ∈ stepMasterAuthorizedNetworks inp) : StepFacts inp s := by
  unfold stepMasterAuthorizedNetworks at h
  split at h
  · simp only [List.mem_singleton] at h
    subst h
    refine ⟨?_, ?_, ?_, ?_⟩ <;>
      simp [stepUnits, callGroup, ClusterUpdate.fieldCount, getLoc, unitBound]
  · simp at h

theorem facts_stepMinMaster {inp : UpdateInput} {s : PlanStep}
    (h : s ∈ stepMinMasterVersion inp) : StepFacts inp s := by
  unfold stepMinMasterVersion at h
  split at h
  · split at h <;> simp only [List.mem_singleton] at h <;> subst h
    · refine ⟨?_, ?_, ?_, ?_⟩ <;>
        split <;>
        simp [stepUnits, callGroup, ClusterUpdate.fieldCount, getLoc, unitBound]
    · refine ⟨?_, ?_, ?_, ?_⟩ <;>
        simp [stepUnits, callGroup, getLoc, unitBound]
  · simp at h

theorem facts_stepNodeVersion {inp : UpdateInput} {s : PlanStep}
    (h : s ∈ stepNodeVersion inp) : StepFacts inp s := by
  unfold stepNodeVersion at h
  split at h
  · simp only [List.mem_singleton] at h
    subst h
    refine ⟨?_, ?_, ?_, ?_⟩ <;>
      simp [stepUnits, callGroup, ClusterUpdate.fieldCount, getLoc, unitBound]
  · simp at h

theorem facts_stepAddons {inp : UpdateInput} {s : PlanStep}
    (h : s ∈ stepAddonsConfig inp) : StepFacts inp s := by
  unfold stepAddonsConfig at h
  split at h
  · simp only [List.mem_singleton] at h
    subst h
    refine ⟨?_, ?_, ?_, ?_⟩ <;>
      simp [stepUnits, callGroup, ClusterUpdate.fieldCount, getLoc, unitBound]
  · simp at h

theorem facts_stepMaintenance {inp : UpdateInput} {s : PlanStep}
    (h : s ∈ stepMaintenancePolicy inp) : StepFacts inp s := by
  unfold stepMaintenancePolicy at h
  split at h
  · simp only [List.mem_singleton] at h
    subst h
    refine ⟨?_, ?_, ?_, ?_⟩ <;>
      simp [stepUnits, callGroup, getLoc, unitBound]
  · simp at h

theorem facts_stepZones {inp : UpdateInput} {s : PlanStep}
    (h : s ∈ stepAdditionalZones inp) : StepFacts inp s := by
  unfold stepAdditionalZones at h
  split at h
  · split at h <;> simp only [List.mem_singleton] at h <;> subst h
    · refine ⟨?_, ?_, ?_, ?_⟩ <;>
        simp [stepUnits, callGroup, getLoc, unitBound]
    · refine ⟨?_, ?_, ?_, ?_⟩ <;>
        split <;>
        simp [stepUnits, callGroup, ClusterUpdate.fieldCount, getLoc, unitBound]
  · simp at h

theorem facts_stepAbac {inp : UpdateInput} {s : PlanStep}
    (h : s ∈ stepEnableLegacyAbac inp) : StepFacts inp s := by
  unfold stepEnableLegacyAbac at h
  split at h
  · simp only [List.mem_singleton] at h
    subst h
    refine ⟨?_, ?_, ?_, ?_⟩ <;>
      simp [stepUnits, callGroup, getLoc, unitBound]
  · simp at h

theorem facts_stepMonitoring {inp : UpdateInput} {s : PlanStep}
    (h : s ∈ stepMonitoringService inp) : StepFacts inp s := by
  unfold stepMonitoringService at h
  split at h
  · simp only [List.mem_singleton] at h
    subst h
    refine ⟨?_, ?_, ?_, ?_⟩ <;>
      simp [stepUnits, callGroup, ClusterUpdate.fieldCount, getLoc, unitBound]
  · simp at h

theorem facts_stepNetworkPolicy {inp : UpdateInput} {s : PlanStep}
    (h : s ∈ stepNetworkPolicy inp) : StepFacts inp s := by
  unfold stepNetworkPolicy at h
  split at h
  · simp only [List.mem_singleton] at h
    subst h
    refine ⟨?_, ?_, ?_, ?_⟩ <;>
      simp [stepUnits, callGroup, getLoc, unitBound]
  · simp at h

theorem facts_stepNodePools {inp : UpdateInput} {s : PlanStep}
    (h : s ∈ stepNodePools inp) : StepFacts inp s := by
  unfold stepNodePools at h
  split at h
  · simp only [List.mem_singleton] at h
    subst h
    refine ⟨?_, ?_, ?_, ?_⟩
    · intro u hu
      simp only [stepUnits, List.mem_filterMap] at hu
      obtain ⟨i, _, hi⟩ := hu
      split at hi
      · cases hi; rfl
      · cases hi
    · intro u hu cu hcu
      simp only [stepUnits, List.mem_filterMap] at hu
      obtain ⟨i, _, hi⟩ := hu
      split at hi
      · cases hi; cases hcu
      · cases hi
    · simp only [stepUnits, unitBound]
      calc ((List.range inp.nodePools.length).filterMap _).length
          ≤ (List.range inp.nodePools.length).length := List.length_filterMap_le _ _
        _ = inp.nodePools.length := List.length_range _
        _ ≤ _ := by simp
    · intro _ u hu
      simp only [stepUnits, List.mem_filterMap] at hu
      obtain ⟨i, _, hi⟩ := hu
      split at hi
      · cases hi; rfl
      · cases hi
  · simp at h

theorem facts_stepLogging {inp : UpdateInput} {s : PlanStep}
    (h : s ∈ stepLoggingService inp) : StepFacts inp s := by
  unfold stepLoggingService at h
  split at h
  · simp only [List.mem_singleton] at h
    subst h
    refine ⟨?_, ?_, ?_, ?_⟩ <;>
      simp [stepUnits, callGroup, getLoc, unitBound]
  · simp at h

theorem facts_stepPodSecurity {inp : UpdateInput} {s : PlanStep}
    (h : s ∈ stepPodSecurityPolicy inp) : StepFacts inp s := by
  unfold stepPodSecurityPolicy at h
  split at h
  · simp only [List.mem_singleton] at h
    subst h
    refine ⟨?_, ?_, ?_, ?_⟩ <;>
      simp [stepUnits, callGroup, ClusterUpdate.fieldCount, getLoc, unitBound]
  · simp at h

theorem facts_stepRemoveDNP {inp : UpdateInput} {s : PlanStep}
    (h : s ∈ stepRemoveDefaultNodePool inp) : StepFacts inp s := by
  unfold stepRemoveDefaultNodePool at h
  split at h
  · simp only [List.mem_singleton] at h
    subst h
    refine ⟨?_, ?_, ?_, ?_⟩ <;>
      simp [stepUnits, callGroup, getLoc, unitBound]
  · simp at h

/-- Splitting membership in the plan into the thirteen blocks. -/
theorem mem_planSteps {inp : UpdateInput} {s : PlanStep} (h : s ∈ planSteps inp) :
    s ∈ stepMasterAuthorizedNetworks inp ∨ s ∈ stepMinMasterVersion inp ∨
    s ∈ stepNodeVersion inp ∨ s ∈ stepAddonsConfig inp ∨
    s ∈ stepMaintenancePolicy inp ∨ s ∈ stepAdditionalZones inp ∨
    s ∈ stepEnableLegacyAbac inp ∨ s ∈ stepMonitoringService inp ∨
    s ∈ stepNetworkPolicy inp ∨ s ∈ stepNodePools inp ∨
    s ∈ stepLoggingService inp ∨ s ∈ stepPodSecurityPolicy inp ∨
    s ∈ stepRemoveDefaultNodePool inp := by
  unfold planSteps at h
  simpa [List.mem_append, or_assoc] using h

theorem plan_step_facts {inp : UpdateInput} {s : PlanStep}
    (h : s ∈ planSteps inp) : StepFacts inp s := by
  rcases mem_planSteps h with h | h | h | h | h | h | h | h | h | h | h | h | h
  · exact facts_stepMANC h
  · exact facts_stepMinMaster h
  · exact facts_stepNodeVersion h
  · exact facts_stepAddons h
  · exact facts_stepMaintenance h
  · exact facts_stepZones h
  · exact facts_stepAbac h
  · exact facts_stepMonitoring h
  · exact facts_stepNetworkPolicy h
  · exact facts_stepNodePools h
  · exact facts_stepLogging h
  · exact facts_stepPodSecurity h
  · exact facts_stepRemoveDNP h

/-! ## Group and key order -/

theorem groups_stepMANC (inp : UpdateInput) :
    (stepMasterAuthorizedNetworks inp).map (·.group) <+
      [FieldGroup.masterAuthorizedNetworksConfig] := by
  unfold stepMasterAuthorizedNetworks; split <;> simp

theorem groups_stepMinMaster (inp : UpdateInput) :
    (stepMinMasterVersion inp).map (·.group) <+ [FieldGroup.minMasterVersion] := by
  unfold stepMinMasterVersion
  split
  · split <;> simp
  · simp

theorem groups_stepNodeVersion (inp : UpdateInput) :
    (stepNodeVersion inp).map (·.group) <+ [FieldGroup.nodeVersion] := by
  unfold stepNodeVersion; split <;> simp

theorem groups_stepAddons (inp : UpdateInput) :
    (stepAddonsConfig inp).map (·.group) <+ [FieldGroup.addonsConfig] := by
  unfold stepAddonsConfig; split <;> simp

theorem groups_stepMaintenance (inp : UpdateInput) :
    (stepMaintenancePolicy inp).map (·.group) <+ [FieldGroup.maintenancePolicy] := by
  unfold stepMaintenancePolicy; split <;> simp

theorem groups_stepZones (inp : UpdateInput) :
    (stepAdditionalZones inp).map (·.group) <+ [FieldGroup.additionalZones] := by
  unfold stepAdditionalZones
  split
  · split <;> simp
  · simp

theorem groups_stepAbac (inp : UpdateInput) :
    (stepEnableLegacyAbac inp).map (·.group) <+ [FieldGroup.enableLegacyAbac] := by
  unfold stepEnableLegacyAbac; split <;> simp

theorem groups_stepMonitoring (inp : UpdateInput) :
    (stepMonitoringService inp).map (·.group) <+ [FieldGroup.monitoringService] := by
  unfold stepMonitoringService; split <;> simp

theorem groups_stepNetworkPolicy (inp : UpdateInput) :
    (stepNetworkPolicy inp).map (·.group) <+ [FieldGroup.networkPolicy] := by
  unfold stepNetworkPolicy; split <;> simp

theorem groups_stepNodePools (inp : UpdateInput) :
    (stepNodePools inp).map (·.group) <+ [FieldGroup.nodePool] := by
  unfold stepNodePools; split <;> simp

theorem groups_stepLogging (inp : UpdateInput) :
    (stepLoggingService inp).map (·.group) <+ [FieldGroup.loggingService] := by
  unfold stepLoggingService; split <;> simp

theorem groups_stepPodSecurity (inp : UpdateInput) :
    (stepPodSecurityPolicy inp).map (·.group) <+
      [FieldGroup.podSecurityPolicyConfig] := by
  unfold stepPodSecurityPolicy; split <;> simp

theorem groups_stepRemoveDNP (inp : UpdateInput) :
    (stepRemoveDefaultNodePool inp).map (·.group) <+
      [FieldGroup.removeDefaultNodePool] := by
  unfold stepRemoveDefaultNodePool; split <;> simp

/-- The groups of the planned steps, in order, form a subsequence of the
source order of the thirteen blocks. -/
theorem plan_groups_sublist (inp : UpdateInput) :
    (planSteps inp).map (·.group) <+ canonicalOrder := by
  unfold planSteps
  simp only [List.map_append]
  show _ <+
    [FieldGroup.masterAuthorizedNetworksConfig] ++ ([FieldGroup.minMasterVersion] ++
    ([FieldGroup.nodeVersion] ++ ([FieldGroup.addonsConfig] ++
    ([FieldGroup.maintenancePolicy] ++ ([FieldGroup.additionalZones] ++
    ([FieldGroup.enableLegacyAbac] ++ ([FieldGroup.monitoringService] ++
    ([FieldGroup.networkPolicy] ++ ([FieldGroup.nodePool] ++
    ([FieldGroup.loggingService] ++ ([FieldGroup.podSecurityPolicyConfig] ++
    [FieldGroup.removeDefaultNodePool])))))))))))
  exact (groups_stepMANC inp).append ((groups_stepMinMaster inp).append
    ((groups_stepNodeVersion inp).append ((groups_stepAddons inp).append
    ((groups_stepMaintenance inp).append ((groups_stepZones inp).append
    ((groups_stepAbac inp).append ((groups_stepMonitoring inp).append
    ((groups_stepNetworkPolicy inp).append ((groups_stepNodePools inp).append
    ((groups_stepLogging inp).append ((groups_stepPodSecurity inp).append
    (groups_stepRemoveDNP inp))))))))))))

theorem canonicalOrder_nodup : canonicalOrder.Nodup := by decide

theorem canonical_rank_pairwise :
    List.Pairwise (fun a b => rank a < rank b) canonicalOrder := by decide

theorem plan_groups_nodup (inp : UpdateInput) :
    ((planSteps inp).map (·.group)).Nodup :=
  (plan_groups_sublist inp).nodup canonicalOrder_nodup

theorem plan_groups_pairwise (inp : UpdateInput) :
    List.Pairwise (fun a b => rank a < rank b) ((planSteps inp).map (·.group)) :=
  canonical_rank_pairwise.sublist (plan_groups_sublist inp)

theorem group_eq_of_mem_sub {l : List PlanStep} {g : FieldGroup} {s : PlanStep}
    (hsub : l.map (·.group) <+ [g]) (hs : s ∈ l) : s.group = g := by
  have := hsub.subset (List.mem_map_of_mem (·.group) hs)
  simpa using this

/-- Which block a planned step of a given group came from. -/
def blockOfGroup (inp : UpdateInput) : FieldGroup → List PlanStep
  | FieldGroup.masterAuthorizedNetworksConfig => stepMasterAuthorizedNetworks inp
  | FieldGroup.minMasterVersion => stepMinMasterVersion inp
  | FieldGroup.nodeVersion => stepNodeVersion inp
  | FieldGroup.addonsConfig => stepAddonsConfig inp
  | FieldGroup.maintenancePolicy => stepMaintenancePolicy inp
  | FieldGroup.additionalZones => stepAdditionalZones inp
  | FieldGroup.enableLegacyAbac => stepEnableLegacyAbac inp
  | FieldGroup.monitoringService => stepMonitoringService inp
  | FieldGroup.networkPolicy => stepNetworkPolicy inp
  | FieldGroup.nodePool => stepNodePools inp
  | FieldGroup.loggingService => stepLoggingService inp
  | FieldGroup.podSecurityPolicyConfig => stepPodSecurityPolicy inp
  | FieldGroup.removeDefaultNodePool => stepRemoveDefaultNodePool inp

theorem plan_attribution {inp : UpdateInput} {s : PlanStep}
    (h : s ∈ planSteps inp) : s ∈ blockOfGroup inp s.group := by
  rcases mem_planSteps h with h | h | h | h | h | h | h | h | h | h | h | h | h
  · rw [group_eq_of_mem_sub (groups_stepMANC inp) h]; exact h
  · rw [group_eq_of_mem_sub (groups_stepMinMaster inp) h]; exact h
  · rw [group_eq_of_mem_sub (groups_stepNodeVersion inp) h]; exact h
  · rw [group_eq_of_mem_sub (groups_stepAddons inp) h]; exact h
  · rw [group_eq_of_mem_sub (groups_stepMaintenance inp) h]; exact h
  · rw [group_eq_of_mem_sub (groups_stepZones inp) h]; exact h
  · rw [group_eq_of_mem_sub (groups_stepAbac inp) h]; exact h
  · rw [group_eq_of_mem_sub (groups_stepMonitoring inp) h]; exact h
  · rw [group_eq_of_mem_sub (groups_stepNetworkPolicy inp) h]; exact h
  · rw [group_eq_of_mem_sub (groups_stepNodePools inp) h]; exact h
  · rw [group_eq_of_mem_sub (groups_stepLogging inp) h]; exact h
  · rw [group_eq_of_mem_sub (groups_stepPodSecurity inp) h]; exact h
  · rw [group_eq_of_mem_sub (groups_stepRemoveDNP inp) h]; exact h

/-! ### `SetPartial` keys are distinct -/

def canonicalKeys : List String :=
  ["master_authorized_networks_config", "min_master_version", "node_version",
   "addons_config", "maintenance_policy", "additional_zones",
   "enable_legacy_abac", "monitoring_service", "network_policy", "node_pool",
   "logging_service", "pod_security_policy_config"]

theorem keys_stepMANC (inp : UpdateInput) :
    partialKeys (stepMasterAuthorizedNetworks inp) <+
      ["master_authorized_networks_config"] := by
  unfold stepMasterAuthorizedNetworks; split <;> simp [partialKeys, stepPartialKey]

theorem keys_stepMinMaster (inp : UpdateInput) :
    partialKeys (stepMinMasterVersion inp) <+ ["min_master_version"] := by
  unfold stepMinMasterVersion
  split
  · split <;> simp [partialKeys, stepPartialKey]
  · simp [partialKeys]

theorem keys_stepNodeVersion (inp : UpdateInput) :
    partialKeys (stepNodeVersion inp) <+ ["node_version"] := by
  unfold stepNodeVersion; split <;> simp [partialKeys, stepPartialKey]

theorem keys_stepAddons (inp : UpdateInput) :
    partialKeys (stepAddonsConfig inp) <+ ["addons_config"] := by
  unfold stepAddonsConfig; split <;> simp [partialKeys, stepPartialKey]

theorem keys_stepMaintenance (inp : UpdateInput) :
    partialKeys (stepMaintenancePolicy inp) <+ ["maintenance_policy"] := by
  unfold stepMaintenancePolicy; split <;> simp [partialKeys, stepPartialKey]

theorem keys_stepZones (inp : UpdateInput) :
    partialKeys (stepAdditionalZones inp) <+ ["additional_zones"] := by
  unfold stepAdditionalZones
  split
  · split <;> simp [partialKeys, stepPartialKey]
  · simp [partialKeys]

theorem keys_stepAbac (inp : UpdateInput) :
    partialKeys (stepEnableLegacyAbac inp) <+ ["enable_legacy_abac"] := by
  unfold stepEnableLegacyAbac; split <;> simp [partialKeys, stepPartialKey]

theorem keys_stepMonitoring (inp : UpdateInput) :
    partialKeys (stepMonitoringService inp) <+ ["monitoring_service"] := by
  unfold stepMonitoringService; split <;> simp [partialKeys, stepPartialKey]

theorem keys_stepNetworkPolicy (inp : UpdateInput) :
    partialKeys (stepNetworkPolicy inp) <+ ["network_policy"] := by
  unfold stepNetworkPolicy; split <;> simp [partialKeys, stepPartialKey]

theorem keys_stepNodePools (inp : UpdateInput) :
    partialKeys (stepNodePools inp) <+ ["node_pool"] := by
  unfold stepNodePools; split <;> simp [partialKeys, stepPartialKey]

theorem keys_stepLogging (inp : UpdateInput) :
    partialKeys (stepLoggingService inp) <+ ["logging_service"] := by
  unfold stepLoggingService; split <;> simp [partialKeys, stepPartialKey]

theorem keys_stepPodSecurity (inp : UpdateInput) :
    partialKeys (stepPodSecurityPolicy inp) <+ ["pod_security_policy_config"] := by
  unfold stepPodSecurityPolicy; split <;> simp [partialKeys, stepPartialKey]

theorem keys_stepRemoveDNP (inp : UpdateInput) :
    partialKeys (stepRemoveDefaultNodePool inp) <+ ([] : List String) := by
  unfold stepRemoveDefaultNodePool; split <;> simp [partialKeys, stepPartialKey]

theorem plan_keys_sublist (inp : UpdateInput) :
    partialKeys (planSteps inp) <+ canonicalKeys := by
  unfold planSteps
  simp only [partialKeys_append]
  show _ <+
    ["master_authorized_networks_config"] ++ (["min_master_version"] ++
    (["node_version"] ++ (["addons_config"] ++ (["maintenance_policy"] ++
    (["additional_zones"] ++ (["enable_legacy_abac"] ++
    (["monitoring_service"] ++ (["network_policy"] ++ (["node_pool"] ++
    (["logging_service"] ++ (["pod_security_policy_config"] ++
    ([] : List String))))))))))))
  exact (keys_stepMANC inp).append ((keys_stepMinMaster inp).append
    ((keys_stepNodeVersion inp).append ((keys_stepAddons inp).append
    ((keys_stepMaintenance inp).append ((keys_stepZones inp).append
    ((keys_stepAbac inp).append ((keys_stepMonitoring inp).append
    ((keys_stepNetworkPolicy inp).append ((keys_stepNodePools inp).append
    ((keys_stepLogging inp).append ((keys_stepPodSecurity inp).append
    (keys_stepRemoveDNP inp))))))))))))

theorem canonicalKeys_nodup : canonicalKeys.Nodup := by decide

theorem plan_keys_nodup (inp : UpdateInput) :
    (partialKeys (planSteps inp)).Nodup :=
  (plan_keys_sublist inp).nodup canonicalKeys_nodup

/-! ### Counting remote calls per group -/

theorem issued_calls_sublist (inp : UpdateInput) (env : Nat → COutcome) :
    callsOf (updResult inp env).events <+ plannedCalls (planSteps inp) := by
  have h := (runPlan_spec env (planSteps inp) 0).2.2.1
  refine (h.sublist).trans ?_
  conv_rhs => rw [← List.take_append_drop
    ((runPlan env 0 (planSteps inp)).completed + 1) (planSteps inp)]
  rw [plannedCalls_append]
  exact (isPrefixOfAppend _ _).sublist

theorem countP_calls_le {steps : List PlanStep} {g : FieldGroup} {B : Nat}
    (hf : ∀ s ∈ steps, ∀ u ∈ stepUnits s, callGroup u.call = some s.group)
    (hn : (steps.map (·.group)).Nodup)
    (hb : ∀ s ∈ steps, s.group = g → (stepUnits s).length ≤ B) :
    (plannedCalls steps).countP (fun c => callGroup c == some g) ≤ B := by
  induction steps with
  | nil => simp [plannedCalls]
  | cons s rest ih =>
    rw [plannedCalls_cons, List.countP_append]
    simp only [List.map_cons, List.nodup_cons] at hn
    by_cases hg : s.group = g
    · have h1 : (((stepUnits s).map (·.call)).countP
          (fun c => callGroup c == some g)) ≤ B := by
        refine le_trans (List.countP_le_length _) ?_
        simpa using hb s (List.mem_cons_self s rest) hg
      have h2 : (plannedCalls rest).countP (fun c => callGroup c == some g) = 0 := by
        refine List.countP_eq_zero.mpr ?_
        intro c hc
        obtain ⟨t, ht, u, hu, rfl⟩ := mem_plannedCalls.mp hc
        have hgr := hf t (List.mem_cons_of_mem s ht) u hu
        have hne : t.group ≠ g := by
          intro hgeq
          apply hn.1
          rw [hg, ← hgeq]
          exact List.mem_map_of_mem (·.group) ht
        simp [hgr, hne]
      omega
    · have h1 : (((stepUnits s).map (·.call)).countP
          (fun c => callGroup c == some g)) = 0 := by
        refine List.countP_eq_zero.mpr ?_
        intro c hc
        obtain ⟨u, hu, rfl⟩ := List.mem_map.mp hc
        have hgr := hf s (List.mem_cons_self s rest) u hu
        simp [hgr, hg]
      rw [h1]
      simpa using ih (fun t ht => hf t (List.mem_cons_of_mem s ht)) hn.2
        (fun t ht hgt => hb t (List.mem_cons_of_mem s ht) hgt)

/-- Zero calls of a group whose planned step (if any) has no call units. -/
theorem countP_calls_zero {steps : List PlanStep} {g : FieldGroup}
    (hf : ∀ s ∈ steps, ∀ u ∈ stepUnits s, callGroup u.call = some s.group)
    (hz : ∀ s ∈ steps, s.group = g → stepUnits s = []) :
    (plannedCalls steps).countP (fun c => callGroup c == some g) = 0 := by
  refine List.countP_eq_zero.mpr ?_
  intro c hc
  obtain ⟨t, ht, u, hu, rfl⟩ := mem_plannedCalls.mp hc
  have hgr := hf t ht u hu
  by_cases hg : t.group = g
  · rw [hz t ht hg] at hu
    cases hu
  · simp [hgr, hg]

/-! ## Changed field groups -/

/-- Whether a field group's value changed in the diff, i.e. whether its
block issues any remote call at all.  For node pools this means some
configured pool changed; for the default-node-pool removal it means the
flag changed to `true`. -/
def groupChanged (inp : UpdateInput) : FieldGroup → Bool
  | FieldGroup.masterAuthorizedNetworksConfig =>
    inp.hasMasterAuthorizedNetworksConfigChange
  | FieldGroup.minMasterVersion => inp.hasMinMasterVersionChange
  | FieldGroup.nodeVersion => inp.hasNodeVersionChange
  | FieldGroup.addonsConfig =>
    inp.hasAddonsConfigChange && inp.addonsConfigPresent
  | FieldGroup.maintenancePolicy => inp.hasMaintenancePolicyChange
  | FieldGroup.additionalZones => inp.hasAdditionalZonesChange
  | FieldGroup.enableLegacyAbac => inp.hasEnableLegacyAbacChange
  | FieldGroup.monitoringService => inp.hasMonitoringServiceChange
  | FieldGroup.networkPolicy => inp.hasNetworkPolicyChange
  | FieldGroup.nodePool => inp.nodePools.any (fun b => b)
  | FieldGroup.loggingService => inp.hasLoggingServiceChange
  | FieldGroup.podSecurityPolicyConfig => inp.hasPodSecurityPolicyConfigChange
  | FieldGroup.removeDefaultNodePool =>
    inp.hasRemoveDefaultNodePoolChange && inp.removeDefaultNodePool

/-- A planned step of an unchanged group has no call units. -/
theorem units_empty_of_unchanged {inp : UpdateInput} {s : PlanStep}
    (h : s ∈ planSteps inp) (hc : groupChanged inp s.group = false) :
    stepUnits s = [] := by
  have hb := plan_attribution h
  cases hg : s.group <;> rw [hg] at hb hc
  case masterAuthorizedNetworksConfig =>
    simp only [blockOfGroup] at hb
    unfold stepMasterAuthorizedNetworks at hb
    split at hb
    · simp_all [groupChanged]
    · cases hb
  case minMasterVersion =>
    simp only [blockOfGroup] at hb
    unfold stepMinMasterVersion at hb
    split at hb
    · simp_all [groupChanged]
    · cases hb
  case nodeVersion =>
    simp only [blockOfGroup] at hb
    unfold stepNodeVersion at hb
    split at hb
    · simp_all [groupChanged]
    · cases hb
  case addonsConfig =>
    simp only [blockOfGroup] at hb
    unfold stepAddonsConfig at hb
    split at hb
    · simp_all [groupChanged]
    · cases hb
  case maintenancePolicy =>
    simp only [blockOfGroup] at hb
    unfold stepMaintenancePolicy at hb
    split at hb
    · simp_all [groupChanged]
    · cases hb
  case additionalZones =>
    simp only [blockOfGroup] at hb
    unfold stepAdditionalZones at hb
    split at hb
    · simp_all [groupChanged]
    · cases hb
  case enableLegacyAbac =>
    simp only [blockOfGroup] at hb
    unfold stepEnableLegacyAbac at hb
    split at hb
    · simp_all [groupChanged]
    · cases hb
  case monitoringService =>
    simp only [blockOfGroup] at hb
    unfold stepMonitoringService at hb
    split at hb
    · simp_all [groupChanged]
    · cases hb
  case networkPolicy =>
    simp only [blockOfGroup] at hb
    unfold stepNetworkPolicy at hb
    split at hb
    · simp_all [groupChanged]
    · cases hb
  case nodePool =>
    simp only [blockOfGroup] at hb
    unfold stepNodePools at hb
    split at hb
    · simp only [List.mem_singleton] at hb
      subst hb
      simp only [groupChanged, List.any_eq_false] at hc
      simp only [stepUnits]
      refine List.filterMap_eq_nil_iff.mpr ?_
      intro i hi
      have hval : inp.nodePools[i]?.getD false = false := by
        rcases hgd : inp.nodePools[i]? with _ | b
        · simp
        · have hbm : b ∈ inp.nodePools := List.getElem?_mem hgd
          have hbf : b = false := by simpa using hc b hbm
          simp [hbf]
      simp [List.getD, hval]
    · cases hb
  case loggingService =>
    simp only [blockOfGroup] at hb
    unfold stepLoggingService at hb
    split at hb
    · simp_all [groupChanged]
    · cases hb
  case podSecurityPolicyConfig =>
    simp only [blockOfGroup] at hb
    unfold stepPodSecurityPolicy at hb
    split at hb
    · simp_all [groupChanged]
    · cases hb
  case removeDefaultNodePool =>
    simp only [blockOfGroup] at hb
    unfold stepRemoveDefaultNodePool at hb
    split at hb
    · simp_all [groupChanged]
    · cases hb

/-! ## Abort-free blocks and all-success runs -/

theorem noabort_stepMANC {inp : UpdateInput} {s : PlanStep}
    (h : s ∈ stepMasterAuthorizedNetworks inp) :
    s.action ≠ StepAction.abort := by
  unfold stepMasterAuthorizedNetworks at h
  split at h <;> simp_all

theorem noabort_stepNodeVersion {inp : UpdateInput} {s : PlanStep}
    (h : s ∈ stepNodeVersion inp) : s.action ≠ StepAction.abort := by
  unfold stepNodeVersion at h
  split at h <;> simp_all

theorem noabort_stepAddons {inp : UpdateInput} {s : PlanStep}
    (h : s ∈ stepAddonsConfig inp) : s.action ≠ StepAction.abort := by
  unfold stepAddonsConfig at h
  split at h <;> simp_all

theorem noabort_stepMaintenance {inp : UpdateInput} {s : PlanStep}
    (h : s ∈ stepMaintenancePolicy inp) : s.action ≠ StepAction.abort := by
  unfold stepMaintenancePolicy at h
  split at h <;> simp_all

theorem noabort_stepMinMaster {inp : UpdateInput} {s : PlanStep}
    {des cur : GoVersion}
    (hd : NewVersion inp.minMasterVersion = some des)
    (hc : NewVersion inp.masterVersion = some cur)
    (h : s ∈ stepMinMasterVersion inp) : s.action ≠ StepAction.abort := by
  unfold stepMinMasterVersion at h
  split at h
  · rw [hd, hc] at h
    simp_all
  · simp_all

theorem noabort_stepZones {inp : UpdateInput} {s : PlanStep}
    (hz : inp.additionalZonesNew.contains inp.location = false)
    (h : s ∈ stepAdditionalZones inp) : s.action ≠ StepAction.abort := by
  unfold stepAdditionalZones at h
  split at h
  · rw [hz] at h
    simp_all
  · simp_all

theorem noabort_stepAbac {inp : UpdateInput} {s : PlanStep}
    (h : s ∈ stepEnableLegacyAbac inp) : s.action ≠ StepAction.abort := by
  unfold stepEnableLegacyAbac at h
  split at h <;> simp_all

theorem noabort_stepMonitoring {inp : UpdateInput} {s : PlanStep}
    (h : s ∈ stepMonitoringService inp) : s.action ≠ StepAction.abort := by
  unfold stepMonitoringService at h
  split at h <;> simp_all

theorem noabort_stepNetworkPolicy {inp : UpdateInput} {s : PlanStep}
    (h : s ∈ stepNetworkPolicy inp) : s.action ≠ StepAction.abort := by
  unfold stepNetworkPolicy at h
  split at h <;> simp_all

theorem noabort_stepNodePools {inp : UpdateInput} {s : PlanStep}
    (h : s ∈ stepNodePools inp) : s.action ≠ StepAction.abort := by
  unfold stepNodePools at h
  split at h <;> simp_all

theorem noabort_stepLogging {inp : UpdateInput} {s : PlanStep}
    (h : s ∈ stepLoggingService inp) : s.action ≠ StepAction.abort := by
  unfold stepLoggingService at h
  split at h <;> simp_all

theorem noabort_stepPodSecurity {inp : UpdateInput} {s : PlanStep}
    (h : s ∈ stepPodSecurityPolicy inp) : s.action ≠ StepAction.abort := by
  unfold stepPodSecurityPolicy at h
  split at h <;> simp_all

theorem noabort_stepRemoveDNP {inp : UpdateInput} {s : PlanStep}
    (h : s ∈ stepRemoveDefaultNodePool inp) : s.action ≠ StepAction.abort := by
  unfold stepRemoveDefaultNodePool at h
  split at h <;> simp_all

/-- In the all-success environment an abort-free plan completes in full:
the run succeeds, records every `SetPartial` key, and issues exactly the
planned calls. -/
theorem runPlan_allOk {steps : List PlanStep}
    (hna : ∀ s ∈ steps, s.action ≠ StepAction.abort) :
    ∀ k,
      (runPlan allOkEnv k steps).ok = true ∧
      (runPlan allOkEnv k steps).partials = partialKeys steps ∧
      callsOf (runPlan allOkEnv k steps).events = plannedCalls steps := by
  induction steps with
  | nil => intro k; simp [runPlan, partialKeys, plannedCalls, callsOf]
  | cons s rest ih =>
    intro k
    obtain ⟨g, ac⟩ := s
    cases ac with
    | abort =>
      exact absurd rfl (hna ⟨g, StepAction.abort⟩ (List.mem_cons_self _ _))
    | runStep units pk =>
      rw [runPlan_cons_run]
      have hok := runUnits_allOk units k
      simp only [hok, if_true]
      obtain ⟨ih1, ih2, ih3⟩ :=
        ih (fun t ht => hna t (List.mem_cons_of_mem _ ht))
          (runUnits allOkEnv k units).next
      refine ⟨ih1, ?_, ?_⟩
      · rw [partialKeys_cons]
        simp only [ih2]
        rfl
      · rw [plannedCalls_cons, callsOf_append, ih3,
            runUnits_ok_calls allOkEnv units k hok]
        rfl

/-! ### Membership of a block's steps in the plan -/

theorem minMaster_block_mem {inp : UpdateInput} {s : PlanStep}
    (h : s ∈ stepMinMasterVersion inp) : s ∈ planSteps inp := by
  unfold planSteps
  simp only [List.mem_append]
  tauto

theorem zones_block_mem {inp : UpdateInput} {s : PlanStep}
    (h : s ∈ stepAdditionalZones inp) : s ∈ planSteps inp := by
  unfold planSteps
  simp only [List.mem_append]
  tauto

/-! ### Locations payloads -/

/-- The `desiredLocations` payloads issued along a trace, in order. -/
def locPayloads (evs : List Ev) : List (List String) :=
  (callsOf evs).filterMap getLoc

theorem locPayloads_append (a b : List Ev) :
    locPayloads (a ++ b) = locPayloads a ++ locPayloads b := by
  simp [locPayloads, callsOf_append]

/-- A run over steps of groups other than `additional_zones` sends no
locations payload. -/
theorem locPayloads_nil {inp : UpdateInput} {steps : List PlanStep}
    (hsub : ∀ s ∈ steps, s ∈ planSteps inp)
    (hng : ∀ s ∈ steps, s.group ≠ FieldGroup.additionalZones)
    (env : Nat → COutcome) (k : Nat) :
    locPayloads (runPlan env k steps).events = [] := by
  unfold locPayloads
  refine List.filterMap_eq_nil_iff.mpr ?_
  intro c hc
  have hmem : c ∈ plannedCalls steps :=
    ((runPlan_spec env steps k).2.2.1.sublist.trans (by
      conv_rhs => rw [← List.take_append_drop
        ((runPlan env k steps).completed + 1) steps]
      rw [plannedCalls_append]
      exact (isPrefixOfAppend _ _).sublist)).subset hc
  obtain ⟨t, ht, u, hu, rfl⟩ := mem_plannedCalls.mp hmem
  exact ((plan_step_facts (hsub t ht)).2.2.2 (hng t ht)) u hu

/-! ## Claims -/

theorem createValidationError_eq_none {inp : CreateInput}
    (h : createValidationError inp = none) :
    nodeVersionMismatch inp = false ∧ zonesContainLocation inp = false ∧
    privateClusterMissingCidr inp = false ∧
    privateClusterMissingIpAlloc inp = false := by
  unfold createValidationError at h
  split at h
  · cases h
  · split at h
    · cases h
    · split at h
      · cases h
      · split at h
        · cases h
        · refine ⟨?_, ?_, ?_, ?_⟩ <;> simp_all

/-- C5: Create checks its cross-field preconditions — `node_version`
equal to `min_master_version` up to the `-gke.X` suffix,
`additional_zones` free of the original zone, and `private_cluster`
accompanied by both `master_ipv4_cidr_block` and `ip_allocation_policy` —
before the mutex is taken and before the create request is built, and a
violation returns a validation error with an empty event trace: no
remote call (and no lock operation) happens. -/
theorem C5_create_validation_fails_fast (inp : CreateInput) (env : CreateEnv)
    (h : nodeVersionMismatch inp = true ∨ zonesContainLocation inp = true ∨
      privateClusterMissingCidr inp = true ∨
      privateClusterMissingIpAlloc inp = true) :
    (createModel inp env).events = [] ∧
    (createModel inp env).error.isSome = true := by
  cases he : createValidationError inp with
  | some e =>
    unfold createModel
    rw [he]
    exact ⟨rfl, rfl⟩
  | none =>
    obtain ⟨h1, h2, h3, h4⟩ := createValidationError_eq_none he
    rcases h with h | h | h | h <;> simp_all

/-- C5 witness: a private cluster without `master_ipv4_cidr_block` is
rejected with no remote call. -/
theorem C5_witness :
    (createModel { privateCluster := true } {}).events = [] ∧
    (createModel { privateCluster := true } {}).error.isSome = true :=
  C5_create_validation_fails_fast { privateCluster := true } {}
    (Or.inr (Or.inr (Or.inl (by decide))))

/-- C6: when the creation operation's wait fails (operation error or
wait-budget timeout), the stored id is cleared to the empty string before
the error is returned — for the container cluster and for the HTTPS
health check alike — so the identity is treated as never created. -/
theorem C6_failed_create_clears_id (inp : CreateInput) (env : CreateEnv)
    (name : String) (hv : createValidationError inp = none)
    (hw : env.createOutcome = COutcome.waitErr) :
    (createModel inp env).id = "" ∧
    (createModel inp env).error.isSome = true ∧
    (httpsHealthCheckCreate name COutcome.waitErr).id = "" ∧
    (httpsHealthCheckCreate name COutcome.waitErr).error.isSome = true := by
  unfold createModel createBody httpsHealthCheckCreate
  rw [hv, hw]
  exact ⟨rfl, rfl, rfl, rfl⟩

/-- C6 witness at a concrete create whose operation wait fails. -/
theorem C6_witness :
    (createModel {} { createOutcome := COutcome.waitErr }).id = "" ∧
    (createModel {} { createOutcome := COutcome.waitErr }).error.isSome = true ∧
    (httpsHealthCheckCreate "hc" COutcome.waitErr).id = "" ∧
    (httpsHealthCheckCreate "hc" COutcome.waitErr).error.isSome = true :=
  C6_failed_create_clears_id {} { createOutcome := COutcome.waitErr } "hc"
    (by decide) rfl

/-- Remote delete rejected on the first 14 attempts, accepted on the
15th, within the 30-second budget. -/
def acceptedAt15Env : DeleteEnv := ⟨fun n => decide (15 ≤ n), 30, true⟩

/-- Remote delete rejected twice, accepted on the third attempt. -/
def acceptedAt3Env : DeleteEnv := ⟨fun n => decide (3 ≤ n), 30, true⟩

/-- C7: the delete retry loop evaluated at the failure-revealing inputs.
A remote delete rejected on the first 14 attempts and accepted on attempt
15 makes the loop return the non-retryable cap error — although the call
was accepted — because the count-cap test runs only after a
*successful* call; a persistently rejected delete is never stopped by the
attempt cap and instead runs until the 30-second retry budget expires,
surfacing the retry helper's timeout error; a delete rejected twice and
accepted on the third attempt succeeds with no error, as the claim
describes. -/
theorem C7_delete_retry_cap_misfires :
    (deleteRetry acceptedAt15Env.deleteCallOk
      (containerClusterFullName "p" "z" "c") 30 0).2 = RetryOutcome.cappedErr ∧
    (deleteModel {} acceptedAt15Env).error.isSome = true ∧
    (deleteRetry (fun _ => false)
      (containerClusterFullName "p" "z" "c") 30 0).2 = RetryOutcome.timeoutErr ∧
    (deleteRetry acceptedAt3Env.deleteCallOk
      (containerClusterFullName "p" "z" "c") 30 0).2 = RetryOutcome.accepted 3 ∧
    (deleteModel {} acceptedAt3Env).error = none := by
  refine ⟨by decide, by decide, by decide, by decide, by decide⟩

/-- C8: a Create with `remove_default_node_pool` whose creation succeeds
issues the default-node-pool delete call and waits for its operation
strictly between acquiring and releasing the same per-identity mutex;
the only unlock is the final event of the trace. -/
theorem C8_default_pool_removed_under_lock (inp : CreateInput)
    (env : CreateEnv) (hv : createValidationError inp = none)
    (hr : inp.removeDefaultNodePool = true)
    (hc : env.createOutcome = COutcome.ok)
    (hn : env.npDeleteOutcome = COutcome.ok) :
    (createModel inp env).events =
      [Ev.lock (containerClusterMutexKey inp.project inp.location inp.clusterName),
       Ev.call (RemoteCall.createCluster inp.clusterName), Ev.opWait,
       Ev.call (RemoteCall.nodePoolDelete "default-pool"), Ev.opWait,
       Ev.unlock (containerClusterMutexKey inp.project inp.location inp.clusterName)] ∧
    (createModel inp env).error = none := by
  unfold createModel createBody
  rw [hv, hc, hr, hn]
  exact ⟨rfl, rfl⟩

/-- C8 witness at a concrete successful create removing the default pool. -/
theorem C8_witness :
    (createModel { removeDefaultNodePool := true } {}).events =
      [Ev.lock (containerClusterMutexKey "p" "z" "c"),
       Ev.call (RemoteCall.createCluster "c"), Ev.opWait,
       Ev.call (RemoteCall.nodePoolDelete "default-pool"), Ev.opWait,
       Ev.unlock (containerClusterMutexKey "p" "z" "c")] ∧
    (createModel { removeDefaultNodePool := true } {}).error = none :=
  C8_default_pool_removed_under_lock { removeDefaultNodePool := true } {}
    (by decide) rfl rfl rfl

/-! ### C1: lock discipline -/

/-- An update changing both `min_master_version` (1.1 to 1.2) and
`node_version` on a zonal cluster. -/
def c1UpdateInput : UpdateInput :=
  { location := "us-central1-a",
    hasMinMasterVersionChange := true, minMasterVersion := "1.2",
    masterVersion := "1.1",
    hasNodeVersionChange := true, nodeVersion := "1.2" }

/-- C1 counterexample: an Update changing two field groups releases the
per-identity mutex after the first step and re-acquires it before the
second — two unlock events, with an unlock preceding a later lock — so
the lock is neither released exactly once nor held continuously across
the steps of one Update call. -/
theorem C1_counterexample :
    (updResult c1UpdateInput allOkEnv).events =
      [Ev.lock "google-container-cluster/p/us-central1-a/c",
       Ev.call (RemoteCall.updateCluster { desiredMasterVersion := some "1.2" }),
       Ev.opWait,
       Ev.unlock "google-container-cluster/p/us-central1-a/c",
       Ev.lock "google-container-cluster/p/us-central1-a/c",
       Ev.call (RemoteCall.updateCluster { desiredNodeVersion := some "1.2" }),
       Ev.opWait,
       Ev.unlock "google-container-cluster/p/us-central1-a/c"] ∧
    (updResult c1UpdateInput allOkEnv).events.countP isUnlockEv = 2 := by
  refine ⟨by decide, by decide⟩

/-- Every event the delete retry loop produces is a remote call. -/
theorem deleteRetry_events_calls (callOk : Nat → Bool) (name : String) :
    ∀ b c, ∀ e ∈ (deleteRetry callOk name b c).1, ∃ cc, e = Ev.call cc := by
  intro b
  induction b with
  | zero => intro c e he; cases he
  | succ b ih =>
    intro c e he
    unfold deleteRetry at he
    by_cases hc : (!callOk (c + 1)) = true
    · simp only [hc, if_true] at he
      rcases List.mem_cons.mp he with h | h
      · exact ⟨RemoteCall.deleteCluster name, h⟩
      · exact ih (c + 1) e h
    · rw [if_neg hc] at he
      by_cases h15 : c + 1 = 15
      · rw [if_pos h15] at he
        simp only [List.mem_singleton] at he
        exact ⟨_, he⟩
      · rw [if_neg h15] at he
        simp only [List.mem_singleton] at he
        exact ⟨_, he⟩

/-- The create body between lock and unlock contains no mutex event. -/
theorem createBody_no_lock (inp : CreateInput) (env : CreateEnv) :
    ∀ e ∈ (createBody inp env).1, isLockEv e = false ∧ isUnlockEv e = false := by
  obtain ⟨co, npo⟩ := env
  cases co <;> cases npo <;>
    by_cases hrd : inp.removeDefaultNodePool = true <;>
    (intro e he
     simp only [createBody, hrd, if_true, if_false] at he) <;>
    fin_cases he <;> exact ⟨rfl, rfl⟩

/-- C1 (amended): Create and Delete hold the per-identity mutex across
their whole sequence, acquiring it once and releasing it exactly once as
the final event (Create acquires nothing at all when validation fails
first).  Update instead acquires and releases the mutex separately
around each step's remote call — so between two steps of the same Update
the lock is released and re-acquired, as the two-step trace shows
concretely — with acquisitions and releases in strict alternation and
the lock always free again at the end of the trace. -/
theorem C1_amended_lock_discipline :
    (∀ (inp : CreateInput) (env : CreateEnv),
      (createModel inp env).events = [] ∨
      ∃ mid, (createModel inp env).events =
          Ev.lock (containerClusterMutexKey inp.project inp.location inp.clusterName) ::
            (mid ++
              [Ev.unlock (containerClusterMutexKey inp.project inp.location inp.clusterName)]) ∧
        ∀ e ∈ mid, isLockEv e = false ∧ isUnlockEv e = false) ∧
    (∀ (inp : DeleteInput) (env : DeleteEnv),
      ∃ mid, (deleteModel inp env).events =
          Ev.lock (containerClusterMutexKey inp.project inp.location inp.clusterName) ::
            (mid ++
              [Ev.unlock (containerClusterMutexKey inp.project inp.location inp.clusterName)]) ∧
        ∀ e ∈ mid, isLockEv e = false ∧ isUnlockEv e = false) ∧
    (∀ (inp : UpdateInput) (env : Nat → COutcome),
      lockScan (updResult inp env).events (some false) = some false) ∧
    (updResult c1UpdateInput allOkEnv).events.countP isUnlockEv = 2 := by
  refine ⟨?_, ?_, ?_, by decide⟩
  · intro inp env
    cases he : createValidationError inp with
    | some e =>
      left
      unfold createModel
      rw [he]
    | none =>
      right
      refine ⟨(createBody inp env).1, ?_, createBody_no_lock inp env⟩
      unfold createModel
      rw [he]
      rfl
  · intro inp env
    cases hr : (deleteRetry env.deleteCallOk
        (containerClusterFullName inp.project inp.location inp.clusterName)
        env.budget 0).2 with
    | accepted n =>
      refine ⟨(deleteRetry env.deleteCallOk
        (containerClusterFullName inp.project inp.location inp.clusterName)
        env.budget 0).1 ++ [Ev.opWait], ?_, ?_⟩
      · unfold deleteModel
        dsimp only
        rw [hr]
        cases env.waitOk <;> simp
      · intro e he
        rcases List.mem_append.mp he with h | h
        · obtain ⟨cc, rfl⟩ := deleteRetry_events_calls env.deleteCallOk _ _ _ e h
          exact ⟨rfl, rfl⟩
        · simp only [List.mem_singleton] at h
          subst h
          exact ⟨rfl, rfl⟩
    | timeoutErr =>
      refine ⟨(deleteRetry env.deleteCallOk
        (containerClusterFullName inp.project inp.location inp.clusterName)
        env.budget 0).1, ?_, ?_⟩
      · unfold deleteModel
        dsimp only
        rw [hr]
        rfl
      · intro e he
        obtain ⟨cc, rfl⟩ := deleteRetry_events_calls env.deleteCallOk _ _ _ e he
        exact ⟨rfl, rfl⟩
    | cappedErr =>
      refine ⟨(deleteRetry env.deleteCallOk
        (containerClusterFullName inp.project inp.location inp.clusterName)
        env.budget 0).1, ?_, ?_⟩
      · unfold deleteModel
        dsimp only
        rw [hr]
        rfl
      · intro e he
        obtain ⟨cc, rfl⟩ := deleteRetry_events_calls env.deleteCallOk _ _ _ e he
        exact ⟨rfl, rfl⟩
  · intro inp env
    exact lockScan_runPlan env (planSteps inp) 0

/-! ### C3: partial progress on failure -/

/-- C3: every Update run splits at some step index `n`: the first `n`
planned steps completed and exactly their `SetPartial` keys are
recorded, in order; the remote calls issued never go beyond the calls
planned for steps `1..n+1` (so once step `n+1` fails nothing of any
later step is issued, and nothing is ever un-done); the run succeeds
exactly when `n` covers the whole plan, and on failure the failing
step's own `SetPartial` key is not recorded. -/
theorem C3_stop_on_failure_keeps_partials (inp : UpdateInput)
    (env : Nat → COutcome) :
    ∃ n, n ≤ (planSteps inp).length ∧
      (updResult inp env).partials = partialKeys ((planSteps inp).take n) ∧
      callsOf (updResult inp env).events <+:
        plannedCalls ((planSteps inp).take (n + 1)) ∧
      ((updResult inp env).ok = true → n = (planSteps inp).length) ∧
      ((updResult inp env).ok = false →
        n < (planSteps inp).length ∧
        ∀ s, (planSteps inp)[n]? = some s →
          ∀ pk, stepPartialKey s = some pk →
            pk ∉ (updResult inp env).partials) := by
  obtain ⟨h1, h2, h3, h4, h5⟩ := runPlan_spec env (planSteps inp) 0
  refine ⟨(runPlan env 0 (planSteps inp)).completed, h1, h2, h3, h4, ?_⟩
  intro hko
  refine ⟨h5 hko, ?_⟩
  intro s hs pk hpk hmem
  have htake : partialKeys
      ((planSteps inp).take ((runPlan env 0 (planSteps inp)).completed + 1)) =
      partialKeys ((planSteps inp).take
        (runPlan env 0 (planSteps inp)).completed) ++ [pk] := by
    rw [List.take_succ, hs, partialKeys_append]
    simp [partialKeys, hpk]
  have hnd : (partialKeys ((planSteps inp).take
      ((runPlan env 0 (planSteps inp)).completed + 1))).Nodup :=
    ((List.take_sublist _ _).filterMap stepPartialKey).nodup (plan_keys_nodup inp)
  rw [htake] at hnd
  have hmem2 : pk ∈ (runPlan env 0 (planSteps inp)).partials := hmem
  rw [h2] at hmem2
  exact (List.nodup_append.mp hnd).2.2 hmem2 (List.mem_singleton_self pk)

/-- C3 witness: a two-group update whose second remote call fails. -/
def c3WitnessInput : UpdateInput :=
  { hasNodeVersionChange := true, nodeVersion := "1.3",
    hasLoggingServiceChange := true, loggingService := "none" }

/-- Environment failing the second remote call of the run. -/
def failSecondCallEnv : Nat → COutcome :=
  fun k => if k = 1 then COutcome.reqErr else COutcome.ok

theorem C3_witness :
    ∃ n, n ≤ (planSteps c3WitnessInput).length ∧
      (updResult c3WitnessInput failSecondCallEnv).partials =
        partialKeys ((planSteps c3WitnessInput).take n) ∧
      callsOf (updResult c3WitnessInput failSecondCallEnv).events <+:
        plannedCalls ((planSteps c3WitnessInput).take (n + 1)) ∧
      ((updResult c3WitnessInput failSecondCallEnv).ok = true →
        n = (planSteps c3WitnessInput).length) ∧
      ((updResult c3WitnessInput failSecondCallEnv).ok = false →
        n < (planSteps c3WitnessInput).length ∧
        ∀ s, (planSteps c3WitnessInput)[n]? = some s →
          ∀ pk, stepPartialKey s = some pk →
            pk ∉ (updResult c3WitnessInput failSecondCallEnv).partials) :=
  C3_stop_on_failure_keeps_partials c3WitnessInput failSecondCallEnv

/-! ### C2: precedence order of the issued calls -/

theorem pairwise_rankLe_const (g : FieldGroup) {l : List FieldGroup}
    (h : ∀ x ∈ l, x = g) :
    List.Pairwise (fun a b => rank a ≤ rank b) l := by
  induction l with
  | nil => exact List.Pairwise.nil
  | cons a l ih =>
    refine List.Pairwise.cons ?_ (ih fun x hx => h x (List.mem_cons_of_mem a hx))
    intro b hb
    rw [h a (List.mem_cons_self a l), h b (List.mem_cons_of_mem a hb)]

theorem mem_planned_groups {steps : List PlanStep} {g : FieldGroup}
    (hf : ∀ s ∈ steps, ∀ u ∈ stepUnits s, callGroup u.call = some s.group)
    (hg : g ∈ (plannedCalls steps).filterMap callGroup) :
    ∃ s ∈ steps, g = s.group := by
  obtain ⟨c, hc, hcg⟩ := List.mem_filterMap.mp hg
  obtain ⟨s, hs, u, hu, rfl⟩ := mem_plannedCalls.mp hc
  have := hf s hs u hu
  rw [this] at hcg
  exact ⟨s, hs, (Option.some_inj.mp hcg).symm⟩

/-- The groups of the planned calls, flattened in plan order, are
monotone in the source precedence rank. -/
theorem planned_call_groups_pairwise {steps : List PlanStep}
    (hf : ∀ s ∈ steps, ∀ u ∈ stepUnits s, callGroup u.call = some s.group)
    (hp : List.Pairwise (fun a b => rank a < rank b) (steps.map (·.group))) :
    List.Pairwise (fun a b => rank a ≤ rank b)
      ((plannedCalls steps).filterMap callGroup) := by
  induction steps with
  | nil => simp [plannedCalls]
  | cons s rest ih =>
    rw [plannedCalls_cons, List.filterMap_append]
    simp only [List.map_cons, List.pairwise_cons] at hp
    refine List.pairwise_append.mpr ⟨?_, ?_, ?_⟩
    · refine pairwise_rankLe_const s.group ?_
      intro x hx
      obtain ⟨c, hc, hcg⟩ := List.mem_filterMap.mp hx
      obtain ⟨u, hu, rfl⟩ := List.mem_map.mp hc
      have := hf s (List.mem_cons_self s rest) u hu
      rw [this] at hcg
      exact (Option.some_inj.mp hcg).symm
    · exact ih (fun t ht => hf t (List.mem_cons_of_mem s ht)) hp.2
    · intro a ha b hb
      obtain ⟨c, hc, hcg⟩ := List.mem_filterMap.mp ha
      obtain ⟨u, hu, rfl⟩ := List.mem_map.mp hc
      have hag := hf s (List.mem_cons_self s rest) u hu
      rw [hag] at hcg
      obtain ⟨t, ht, rfl⟩ :=
        mem_planned_groups (fun t ht => hf t (List.mem_cons_of_mem s ht)) hb
      have := hp.1 t.group (List.mem_map_of_mem (·.group) ht)
      rw [← Option.some_inj.mp hcg]
      exact le_of_lt this

/-- The scenario of the claim: desired master version 1.2 over observed
1.1, desired node version 1.2, and an addon toggled. -/
def c2Scenario : UpdateInput :=
  { hasMinMasterVersionChange := true, minMasterVersion := "1.2",
    masterVersion := "1.1",
    hasNodeVersionChange := true, nodeVersion := "1.2",
    hasAddonsConfigChange := true, addonsConfigPresent := true }

/-- C2: along every Update run the issued remote calls appear in the
fixed source precedence order of their field groups — master authorized
networks, then master version, then node version, then the remaining
toggles, with per-node-pool calls after all master-level changes — and
in the claim's scenario (masterVersion, workerVersion and an addon all
change) the calls are issued in exactly the order
[masterVersion, nodeVersion, addons], all three steps apply, and the
run ends with no error. -/
theorem C2_fixed_precedence_order :
    (∀ (inp : UpdateInput) (env : Nat → COutcome),
      List.Pairwise (fun a b => rank a ≤ rank b)
        (issuedGroups (updResult inp env).events)) ∧
    issuedGroups (updResult c2Scenario allOkEnv).events =
      [FieldGroup.minMasterVersion, FieldGroup.nodeVersion,
       FieldGroup.addonsConfig] ∧
    (updResult c2Scenario allOkEnv).partials =
      ["min_master_version", "node_version", "addons_config"] ∧
    (updResult c2Scenario allOkEnv).completed = 3 ∧
    (updResult c2Scenario allOkEnv).ok = true := by
  refine ⟨?_, by decide, by decide, by decide, by decide⟩
  intro inp env
  have hsub : issuedGroups (updResult inp env).events <+
      (plannedCalls (planSteps inp)).filterMap callGroup :=
    (issued_calls_sublist inp env).filterMap callGroup
  exact (planned_call_groups_pairwise
    (fun s hs => (plan_step_facts hs).1) (plan_groups_pairwise inp)).sublist hsub

/-! ### C4: one request per changed field group -/

/-- An update whose only change shrinks `additional_zones` on a zonal
cluster: the exact-target set differs from the union, so the single
changed field group issues two `UpdateClusterRequest`s. -/
def c4Input : UpdateInput :=
  { location := "us-central1-a",
    hasAdditionalZonesChange := true,
    additionalZonesOld := ["us-central1-b", "us-central1-f"],
    additionalZonesNew := ["us-central1-b"] }

/-- C4 counterexample: with only `additional_zones` changed (every other
field group unchanged), the Update issues two remote update requests for
that one field group — the add-phase union call and the remove-phase
exact-set call — refuting "at most one remote update request per changed
field group". -/
theorem C4_counterexample :
    (callsOf (updResult c4Input allOkEnv).events).countP
      (fun c => callGroup c == some FieldGroup.additionalZones) = 2 ∧
    groupChanged c4Input FieldGroup.additionalZones = true ∧
    (∀ g, g ≠ FieldGroup.additionalZones → groupChanged c4Input g = false) := by
  refine ⟨by decide, by decide, by decide⟩

/-- C4 (amended): every `UpdateClusterRequest` issued carries exactly one
`Desired*` field; each changed field group leads to at most one remote
call of that group, except `additional_zones` (up to two: the union
first, then the exact target) and the node pools (at most one call per
configured pool); an unchanged field group produces zero remote calls;
and when nothing changed at all, no remote call whatsoever is issued. -/
theorem C4_amended_one_request_per_group (inp : UpdateInput)
    (env : Nat → COutcome) :
    (∀ u, RemoteCall.updateCluster u ∈ callsOf (updResult inp env).events →
      u.fieldCount = 1) ∧
    (∀ g, g ≠ FieldGroup.additionalZones → g ≠ FieldGroup.nodePool →
      (callsOf (updResult inp env).events).countP
        (fun c => callGroup c == some g) ≤ 1) ∧
    (callsOf (updResult inp env).events).countP
      (fun c => callGroup c == some FieldGroup.additionalZones) ≤ 2 ∧
    (callsOf (updResult inp env).events).countP
      (fun c => callGroup c == some FieldGroup.nodePool) ≤
        inp.nodePools.length ∧
    (∀ g, groupChanged inp g = false →
      (callsOf (updResult inp env).events).countP
        (fun c => callGroup c == some g) = 0) ∧
    ((∀ g, groupChanged inp g = false) →
      callsOf (updResult inp env).events = []) := by
  have hf : ∀ s ∈ planSteps inp, ∀ u ∈ stepUnits s,
      callGroup u.call = some s.group := fun s hs => (plan_step_facts hs).1
  have hsub := issued_calls_sublist inp env
  refine ⟨?_, ?_, ?_, ?_, ?_, ?_⟩
  · intro u hu
    obtain ⟨s, hs, w, hw, hwc⟩ := mem_plannedCalls.mp (hsub.subset hu)
    exact (plan_step_facts hs).2.1 w hw u hwc
  · intro g hz hn
    refine le_trans (hsub.countP_le _) ?_
    refine countP_calls_le hf (plan_groups_nodup inp) ?_
    intro s hs hg
    have := (plan_step_facts hs).2.2.1
    rwa [hg, unitBound, if_neg hz, if_neg hn] at this
  · refine le_trans (hsub.countP_le _) ?_
    refine countP_calls_le hf (plan_groups_nodup inp) ?_
    intro s hs hg
    have := (plan_step_facts hs).2.2.1
    rwa [hg, unitBound, if_pos rfl] at this
  · refine le_trans (hsub.countP_le _) ?_
    refine countP_calls_le hf (plan_groups_nodup inp) ?_
    intro s hs hg
    have := (plan_step_facts hs).2.2.1
    rwa [hg, unitBound, if_neg (by decide), if_pos rfl] at this
  · intro g hgc
    have hz : (plannedCalls (planSteps inp)).countP
        (fun c => callGroup c == some g) = 0 :=
      countP_calls_zero hf fun s hs hg =>
        units_empty_of_unchanged hs (by rwa [hg])
    exact Nat.le_zero.mp (hz ▸ hsub.countP_le _)
  · intro hall
    refine List.eq_nil_iff_forall_not_mem.mpr ?_
    intro c hc
    obtain ⟨s, hs, u, hu, rfl⟩ := mem_plannedCalls.mp (hsub.subset hc)
    have := units_empty_of_unchanged hs (hall s.group)
    rw [this] at hu
    cases hu

/-- C4 witness at a concrete input and environment. -/
theorem C4_witness :
    (∀ u, RemoteCall.updateCluster u ∈
        callsOf (updResult c2Scenario allOkEnv).events → u.fieldCount = 1) ∧
    (∀ g, g ≠ FieldGroup.additionalZones → g ≠ FieldGroup.nodePool →
      (callsOf (updResult c2Scenario allOkEnv).events).countP
        (fun c => callGroup c == some g) ≤ 1) ∧
    (callsOf (updResult c2Scenario allOkEnv).events).countP
      (fun c => callGroup c == some FieldGroup.additionalZones) ≤ 2 ∧
    (callsOf (updResult c2Scenario allOkEnv).events).countP
      (fun c => callGroup c == some FieldGroup.nodePool) ≤
        c2Scenario.nodePools.length ∧
    (∀ g, groupChanged c2Scenario g = false →
      (callsOf (updResult c2Scenario allOkEnv).events).countP
        (fun c => callGroup c == some g) = 0) ∧
    ((∀ g, groupChanged c2Scenario g = false) →
      callsOf (updResult c2Scenario allOkEnv).events = []) :=
  C4_amended_one_request_per_group c2Scenario allOkEnv

/-! ### C9: conditional master-version upgrade -/

theorem stepMinMaster_abort {inp : UpdateInput}
    (h : inp.hasMinMasterVersionChange = true)
    (hpn : NewVersion inp.minMasterVersion = none ∨
      NewVersion inp.masterVersion = none) :
    stepMinMasterVersion inp =
      [⟨FieldGroup.minMasterVersion, StepAction.abort⟩] := by
  unfold stepMinMasterVersion
  rw [if_pos h]
  cases hd : NewVersion inp.minMasterVersion with
  | none => rfl
  | some des =>
    cases hc : NewVersion inp.masterVersion with
    | none => rfl
    | some cur =>
      rcases hpn with h1 | h1
      · rw [hd] at h1; cases h1
      · rw [hc] at h1; cases h1

theorem stepMinMaster_run {inp : UpdateInput} {des cur : GoVersion}
    (h : inp.hasMinMasterVersionChange = true)
    (hd : NewVersion inp.minMasterVersion = some des)
    (hc : NewVersion inp.masterVersion = some cur) :
    stepMinMasterVersion inp =
      [⟨FieldGroup.minMasterVersion,
        StepAction.runStep
          (if cur.lessThan des then
            [⟨some (updLockKey inp),
              RemoteCall.updateCluster
                { desiredMasterVersion := some inp.minMasterVersion }⟩]
          else [])
          (some "min_master_version")⟩] := by
  unfold stepMinMasterVersion
  rw [if_pos h, hd, hc]

/-- The eleven blocks after `min_master_version`, in source order. -/
def planTailAfterMinMaster (inp : UpdateInput) : List PlanStep :=
  stepNodeVersion inp ++ (stepAddonsConfig inp ++ (stepMaintenancePolicy inp ++
  (stepAdditionalZones inp ++ (stepEnableLegacyAbac inp ++
  (stepMonitoringService inp ++ (stepNetworkPolicy inp ++ (stepNodePools inp ++
  (stepLoggingService inp ++ (stepPodSecurityPolicy inp ++
  stepRemoveDefaultNodePool inp)))))))))

theorem planSteps_decomp_minMaster (inp : UpdateInput) :
    planSteps inp = stepMasterAuthorizedNetworks inp ++
      (stepMinMasterVersion inp ++ planTailAfterMinMaster inp) := rfl

/-- The number of remote master-version update calls in a trace. -/
def mvCount (r : RunOut) : Nat :=
  (callsOf r.events).countP
    (fun c => callGroup c == some FieldGroup.minMasterVersion)

/-- C9: when `min_master_version` changed, (i) a version string that
fails to parse makes the Update fail with no master-version remote call
ever issued; (ii) a master-version remote call is issued only when the
current master version is strictly lower than the desired one; and
(iii) when the current version is greater than or equal to the desired
one, no master-version call is made yet `min_master_version` is still
recorded as applied. -/
theorem C9_master_version_gated (inp : UpdateInput)
    (h : inp.hasMinMasterVersionChange = true) :
    ((NewVersion inp.minMasterVersion = none ∨
        NewVersion inp.masterVersion = none) →
      ∀ env, (updResult inp env).ok = false ∧ mvCount (updResult inp env) = 0) ∧
    (∀ env, 0 < mvCount (updResult inp env) →
      ∃ des cur, NewVersion inp.minMasterVersion = some des ∧
        NewVersion inp.masterVersion = some cur ∧ cur.lessThan des = true) ∧
    (∀ des cur, NewVersion inp.minMasterVersion = some des →
      NewVersion inp.masterVersion = some cur → cur.lessThan des = false →
      mvCount (updResult inp allOkEnv) = 0 ∧
      "min_master_version" ∈ (updResult inp allOkEnv).partials) := by
  have hf : ∀ s ∈ planSteps inp, ∀ u ∈ stepUnits s,
      callGroup u.call = some s.group := fun s hs => (plan_step_facts hs).1
  refine ⟨?_, ?_, ?_⟩
  · intro hpn env
    constructor
    · have hmem : (⟨FieldGroup.minMasterVersion, StepAction.abort⟩ : PlanStep) ∈
          planSteps inp := by
        refine minMaster_block_mem ?_
        rw [stepMinMaster_abort h hpn]
        exact List.mem_singleton_self _
      exact runPlan_abort_mem env (planSteps inp) _ hmem rfl 0
    · have hz : ∀ s ∈ planSteps inp,
          s.group = FieldGroup.minMasterVersion → stepUnits s = [] := by
        intro s hs hg
        have hb := plan_attribution hs
        rw [hg] at hb
        simp only [blockOfGroup] at hb
        rw [stepMinMaster_abort h hpn] at hb
        simp only [List.mem_singleton] at hb
        subst hb
        rfl
      have hp0 := countP_calls_zero hf hz
      exact Nat.le_zero.mp
        (hp0 ▸ (issued_calls_sublist inp env).countP_le _)
  · intro env hpos
    obtain ⟨c, hc, hp⟩ := List.countP_pos_iff.mp hpos
    have hcg : callGroup c = some FieldGroup.minMasterVersion := by
      simpa using hp
    obtain ⟨s, hs, u, hu, rfl⟩ :=
      mem_plannedCalls.mp ((issued_calls_sublist inp env).subset hc)
    have hsg : s.group = FieldGroup.minMasterVersion := by
      have := hf s hs u hu
      rw [this] at hcg
      exact Option.some_inj.mp hcg
    have hb := plan_attribution hs
    rw [hsg] at hb
    simp only [blockOfGroup] at hb
    unfold stepMinMasterVersion at hb
    rw [if_pos h] at hb
    cases hd : NewVersion inp.minMasterVersion with
    | none =>
      rw [hd] at hb
      simp only [List.mem_singleton] at hb
      subst hb
      cases hu
    | some des =>
      rw [hd] at hb
      cases hcv : NewVersion inp.masterVersion with
      | none =>
        rw [hcv] at hb
        simp only [List.mem_singleton] at hb
        subst hb
        cases hu
      | some cur =>
        rw [hcv] at hb
        simp only [List.mem_singleton] at hb
        subst hb
        by_cases hlt : cur.lessThan des = true
        · exact ⟨des, cur, rfl, rfl, hlt⟩
        · simp only [Bool.not_eq_true] at hlt
          simp only [stepUnits, hlt, Bool.false_eq_true, if_false] at hu
          cases hu
  · intro des cur hd hcv hlt
    constructor
    · have hz : ∀ s ∈ planSteps inp,
          s.group = FieldGroup.minMasterVersion → stepUnits s = [] := by
        intro s hs hg
        have hb := plan_attribution hs
        rw [hg] at hb
        simp only [blockOfGroup] at hb
        rw [stepMinMaster_run h hd hcv] at hb
        simp only [List.mem_singleton] at hb
        subst hb
        simp [stepUnits, hlt]
      have hp0 := countP_calls_zero hf hz
      exact Nat.le_zero.mp
        (hp0 ▸ (issued_calls_sublist inp allOkEnv).countP_le _)
    · obtain ⟨okA, parA, _⟩ :=
        runPlan_allOk (fun s hs => noabort_stepMANC hs) 0
      have hkey : (updResult inp allOkEnv).partials =
          (runPlan allOkEnv 0 (stepMasterAuthorizedNetworks inp ++
            (stepMinMasterVersion inp ++ planTailAfterMinMaster inp))).partials := by
        rw [← planSteps_decomp_minMaster]
        rfl
      rw [hkey, runPlan_append allOkEnv
        (stepMinMasterVersion inp ++ planTailAfterMinMaster inp)
        (stepMasterAuthorizedNetworks inp) 0]
      rw [if_pos okA]
      obtain ⟨okB, parB, _⟩ :=
        runPlan_allOk (fun s hs => noabort_stepMinMaster hd hcv hs)
          (runPlan allOkEnv 0 (stepMasterAuthorizedNetworks inp)).next
      rw [runPlan_append allOkEnv (planTailAfterMinMaster inp)
        (stepMinMasterVersion inp)
        (runPlan allOkEnv 0 (stepMasterAuthorizedNetworks inp)).next]
      rw [if_pos okB]
      have hkeys : partialKeys (stepMinMasterVersion inp) =
          ["min_master_version"] := by
        rw [stepMinMaster_run h hd hcv]
        simp [partialKeys, stepPartialKey]
      simp [parB, hkeys]

/-- An update asking to lower the master version from 1.3 to 1.2. -/
def c9WitnessInput : UpdateInput :=
  { hasMinMasterVersionChange := true, minMasterVersion := "1.2",
    masterVersion := "1.3" }

theorem C9_witness :
    ((NewVersion c9WitnessInput.minMasterVersion = none ∨
        NewVersion c9WitnessInput.masterVersion = none) →
      ∀ env, (updResult c9WitnessInput env).ok = false ∧
        mvCount (updResult c9WitnessInput env) = 0) ∧
    (∀ env, 0 < mvCount (updResult c9WitnessInput env) →
      ∃ des cur, NewVersion c9WitnessInput.minMasterVersion = some des ∧
        NewVersion c9WitnessInput.masterVersion = some cur ∧
        cur.lessThan des = true) ∧
    (∀ des cur, NewVersion c9WitnessInput.minMasterVersion = some des →
      NewVersion c9WitnessInput.masterVersion = some cur →
      cur.lessThan des = false →
      mvCount (updResult c9WitnessInput allOkEnv) = 0 ∧
      "min_master_version" ∈ (updResult c9WitnessInput allOkEnv).partials) :=
  C9_master_version_gated c9WitnessInput (by decide)

/-! ### C10: add-before-remove for `additional_zones` -/

theorem mem_sAdd {s : List String} {x y : String} :
    y ∈ sAdd s x ↔ y ∈ s ∨ y = x := by
  unfold sAdd
  split
  · rename_i hcont
    constructor
    · exact Or.inl
    · rintro (hy | rfl)
      · exact hy
      · simpa using hcont
  · simp [List.mem_append]

theorem mem_sUnion : ∀ (b a : List String) (y : String),
    y ∈ sUnion a b ↔ y ∈ a ∨ y ∈ b
  | [], a, y => by simp [sUnion]
  | x :: b, a, y => by
    show y ∈ sUnion (sAdd a x) b ↔ _
    rw [mem_sUnion b (sAdd a x) y, mem_sAdd]
    simp only [List.mem_cons]
    tauto

/-- Every zone of the target set is already in the first (union) set:
nothing is removed before every added zone has been sent. -/
theorem azTarget_subset_azFirstSend (inp : UpdateInput) :
    ∀ z ∈ azTarget inp, z ∈ azFirstSend inp := by
  intro z hz
  unfold azTarget azFirstSend at *
  by_cases hiz : isZone inp.location = true
  · rw [if_pos hiz] at hz ⊢
    rw [mem_sAdd] at hz ⊢
    rcases hz with hz | rfl
    · exact Or.inl ((mem_sUnion _ _ _).mpr (Or.inr hz))
    · exact Or.inr rfl
  · rw [if_neg hiz] at hz ⊢
    exact (mem_sUnion _ _ _).mpr (Or.inr hz)

theorem stepZones_run {inp : UpdateInput}
    (h1 : inp.hasAdditionalZonesChange = true)
    (h2 : inp.additionalZonesNew.contains inp.location = false) :
    stepAdditionalZones inp =
      [⟨FieldGroup.additionalZones,
        StepAction.runStep
          (⟨some (updLockKey inp),
            RemoteCall.updateCluster { desiredLocations := some (azFirstSend inp) }⟩ ::
            (if sEq (azFirstSend inp) (azTarget inp) then []
             else
              [⟨some (updLockKey inp),
                RemoteCall.updateCluster { desiredLocations := some (azTarget inp) }⟩]))
          (some "additional_zones")⟩] := by
  unfold stepAdditionalZones
  rw [if_pos h1, if_neg (by rw [h2]; exact Bool.false_ne_true)]

/-- The five blocks before `additional_zones`, in source order. -/
def planHead5 (inp : UpdateInput) : List PlanStep :=
  stepMasterAuthorizedNetworks inp ++ (stepMinMasterVersion inp ++
  (stepNodeVersion inp ++ (stepAddonsConfig inp ++ stepMaintenancePolicy inp)))

/-- The seven blocks after `additional_zones`, in source order. -/
def planTail7 (inp : UpdateInput) : List PlanStep :=
  stepEnableLegacyAbac inp ++ (stepMonitoringService inp ++
  (stepNetworkPolicy inp ++ (stepNodePools inp ++ (stepLoggingService inp ++
  (stepPodSecurityPolicy inp ++ stepRemoveDefaultNodePool inp)))))

theorem planSteps_decomp_zones (inp : UpdateInput) :
    planSteps inp = planHead5 inp ++
      (stepAdditionalZones inp ++ planTail7 inp) := by
  simp [planSteps, planHead5, planTail7, List.append_assoc]

/-- C10: in an Update where `additional_zones` changed (and whose new set
does not contain the original zone, and whose master-version step does
not abort on a parse error), the locations calls issued are: first the
union of the old and new zone sets (plus the original zone when the
location is a zone), and then the exact target set — issued only when
the union differs from it; and every zone of the target set is contained
in the first set sent, so no zone is removed before all added zones have
been sent. -/
theorem C10_zones_add_before_remove (inp : UpdateInput)
    (h1 : inp.hasAdditionalZonesChange = true)
    (h2 : inp.additionalZonesNew.contains inp.location = false)
    (h3 : stepMinMasterVersion inp = [] ∨ ∃ des cur,
      NewVersion inp.minMasterVersion = some des ∧
      NewVersion inp.masterVersion = some cur) :
    locPayloads (updResult inp allOkEnv).events =
      azFirstSend inp ::
        (if sEq (azFirstSend inp) (azTarget inp) then [] else [azTarget inp]) ∧
    ∀ z ∈ azTarget inp, z ∈ azFirstSend inp := by
  refine ⟨?_, azTarget_subset_azFirstSend inp⟩
  have hA : ∀ s ∈ planHead5 inp, s.action ≠ StepAction.abort := by
    intro s hs
    unfold planHead5 at hs
    simp only [List.mem_append] at hs
    rcases hs with hs | hs | hs | hs | hs
    · exact noabort_stepMANC hs
    · rcases h3 with h3 | ⟨des, cur, hd, hc⟩
      · rw [h3] at hs; cases hs
      · exact noabort_stepMinMaster hd hc hs
    · exact noabort_stepNodeVersion hs
    · exact noabort_stepAddons hs
    · exact noabort_stepMaintenance hs
  have hAsub : ∀ s ∈ planHead5 inp, s ∈ planSteps inp := by
    intro s hs
    rw [planSteps_decomp_zones]
    exact List.mem_append_left _ hs
  have hAng : ∀ s ∈ planHead5 inp, s.group ≠ FieldGroup.additionalZones := by
    intro s hs
    unfold planHead5 at hs
    simp only [List.mem_append] at hs
    rcases hs with hs | hs | hs | hs | hs
    · rw [group_eq_of_mem_sub (groups_stepMANC inp) hs]; decide
    · rw [group_eq_of_mem_sub (groups_stepMinMaster inp) hs]; decide
    · rw [group_eq_of_mem_sub (groups_stepNodeVersion inp) hs]; decide
    · rw [group_eq_of_mem_sub (groups_stepAddons inp) hs]; decide
    · rw [group_eq_of_mem_sub (groups_stepMaintenance inp) hs]; decide
  have hTsub : ∀ s ∈ planTail7 inp, s ∈ planSteps inp := by
    intro s hs
    rw [planSteps_decomp_zones]
    exact List.mem_append_right _ (List.mem_append_right _ hs)
  have hTng : ∀ s ∈ planTail7 inp, s.group ≠ FieldGroup.additionalZones := by
    intro s hs
    unfold planTail7 at hs
    simp only [List.mem_append] at hs
    rcases hs with hs | hs | hs | hs | hs | hs | hs
    · rw [group_eq_of_mem_sub (groups_stepAbac inp) hs]; decide
    · rw [group_eq_of_mem_sub (groups_stepMonitoring inp) hs]; decide
    · rw [group_eq_of_mem_sub (groups_stepNetworkPolicy inp) hs]; decide
    · rw [group_eq_of_mem_sub (groups_stepNodePools inp) hs]; decide
    · rw [group_eq_of_mem_sub (groups_stepLogging inp) hs]; decide
    · rw [group_eq_of_mem_sub (groups_stepPodSecurity inp) hs]; decide
    · rw [group_eq_of_mem_sub (groups_stepRemoveDNP inp) hs]; decide
  obtain ⟨okA, _, _⟩ := runPlan_allOk hA 0
  have hkey : (updResult inp allOkEnv).events =
      (runPlan allOkEnv 0 (planHead5 inp ++
        (stepAdditionalZones inp ++ planTail7 inp))).events := by
    rw [← planSteps_decomp_zones]
    rfl
  rw [hkey, runPlan_append allOkEnv
    (stepAdditionalZones inp ++ planTail7 inp) (planHead5 inp) 0, if_pos okA]
  obtain ⟨okZ, _, callsZ⟩ := runPlan_allOk
    (fun s hs => noabort_stepZones h2 hs)
    (runPlan allOkEnv 0 (planHead5 inp)).next
  rw [runPlan_append allOkEnv (planTail7 inp) (stepAdditionalZones inp)
    (runPlan allOkEnv 0 (planHead5 inp)).next, if_pos okZ]
  simp only [locPayloads_append]
  rw [locPayloads_nil hAsub hAng allOkEnv 0, locPayloads_nil hTsub hTng allOkEnv _]
  have hZ : locPayloads (runPlan allOkEnv
      (runPlan allOkEnv 0 (planHead5 inp)).next
      (stepAdditionalZones inp)).events =
      azFirstSend inp ::
        (if sEq (azFirstSend inp) (azTarget inp) then []
         else [azTarget inp]) := by
    unfold locPayloads
    rw [callsZ, stepZones_run h1 h2]
    by_cases hse : sEq (azFirstSend inp) (azTarget inp) = true <;>
      simp [hse, plannedCalls, stepUnits, getLoc]
  rw [hZ]
  simp

/-- A zonal cluster whose additional zones shrink from {b, f} to {b}. -/
def c10WitnessInput : UpdateInput :=
  { location := "us-central1-a",
    hasAdditionalZonesChange := true,
    additionalZonesOld := ["us-central1-b", "us-central1-f"],
    additionalZonesNew := ["us-central1-b"] }

theorem C10_witness :
    locPayloads (updResult c10WitnessInput allOkEnv).events =
      azFirstSend c10WitnessInput ::
        (if sEq (azFirstSend c10WitnessInput) (azTarget c10WitnessInput) then []
         else [azTarget c10WitnessInput]) ∧
    ∀ z ∈ azTarget c10WitnessInput, z ∈ azFirstSend c10WitnessInput :=
  C10_zones_add_before_remove c10WitnessInput (by decide) (by decide)
    (Or.inl (by decide))

end TPG



